import Mathlib

/-!
A shallow embedding of the ONNX graph-import pipeline of the burn repository,
translated from `src/burn-import/src/onnx/from_onnx.rs`.

Modelling conventions:
* Rust `HashMap` values are association lists; insertion prepends an entry, and
  lookup returns the first match, so the observable lookup behaviour (the most
  recent insert for a key wins) agrees with the hash map.
* Rust `Vec` values are `List`s; in-place mutation at an index is `modifyAt`.
* Fatal aborts (panicking `unwrap`/`expect` calls, out-of-bounds indexing and
  the failed topological-order assertion) are an explicit `Panic` error in the
  `Except Panic` monad; a completed parse is `Except.ok`.
* The serialized file is taken as the already-deserialized `ModelProto` value;
  the protobuf reader is out of scope. `check_validity` re-reads the same
  model value, matching a second parse of the same file.
* External collaborators that are not part of this file (`ir.rs` constructors,
  `convert_node_proto`, `remap_node_type`, `coalesce`, the per-operator part of
  `dim_inference`) are modelled from the spec; each such definition carries a
  doc comment saying so.
-/

/-- Association-list lookup, modelling `HashMap::get`. Entries are prepended on
insertion, so the first match is the most recently inserted binding. -/
def alookup {κ α : Type} [DecidableEq κ] : List (κ × α) → κ → Option α
  | [], _ => none
  | (k, v) :: rest, key => if k = key then some v else alookup rest key

/-- In-place update of a list element, modelling mutation of `Vec[i]`.
Out of bounds leaves the list unchanged (such indices are unreachable in the
registry, whose stored indices always point into the backing vector). -/
def modifyAt {α : Type} : List α → Nat → (α → α) → List α
  | [], _, _ => []
  | a :: rest, 0, f => f a :: rest
  | a :: rest, n + 1, f => a :: modifyAt rest n f

/-- Decidable equality of `Except` results, for evaluating concrete runs. -/
instance {e a : Type} [DecidableEq e] [DecidableEq a] : DecidableEq (Except e a) := fun x y =>
  match x, y with
  | Except.ok u, Except.ok v =>
      if h : u = v then Decidable.isTrue (by rw [h])
      else Decidable.isFalse (by intro hc; cases hc; exact h rfl)
  | Except.error u, Except.error v =>
      if h : u = v then Decidable.isTrue (by rw [h])
      else Decidable.isFalse (by intro hc; cases hc; exact h rfl)
  | Except.ok u, Except.error v => Decidable.isFalse (by intro hc; cases hc)
  | Except.error u, Except.ok v => Decidable.isFalse (by intro hc; cases hc)

/-- Element kinds of tensor types (`ir.rs`, out of scope; the embedded kinds
are the ones the pipeline manipulates). -/
inductive ElementType : Type where
  | Float32
  | Int64
deriving DecidableEq

/-- Tensor type: element kind, rank, optional concrete shape (`ir.rs`). -/
structure TensorType : Type where
  elem_type : ElementType
  dim : Nat
  shape : Option (List Nat)
deriving DecidableEq

/-- Argument types (`ir.rs`, out of scope): tensor or scalar variant. -/
inductive ArgType : Type where
  | Tensor (t : TensorType)
  | Scalar (e : ElementType)
deriving DecidableEq

/-- Literal compile-time data carried by an `Argument` (`ir.rs`). -/
inductive Data : Type where
  | Int64s (l : List Int)
  | Int64 ( i : Int)
deriving DecidableEq

/-- Attribute values of a node (`ir.rs`, out of scope): the variants used by
constant nodes in this development. -/
inductive AttributeValue : Type where
  | Ints (l : List Int)
  | IntVal ( i : Int)
deriving DecidableEq

/-- A named value flowing along a graph edge: name, type, optional literal
value, and the `passed` flag (`ir.rs`). -/
structure Argument : Type where
  name : String
  ty : ArgType
  value : Option Data
  passed : Bool
deriving DecidableEq

/-- Modelled from the spec: `Argument::new` in the out-of-scope `ir.rs`
synthesizes a fresh unset Argument under a name (default tensor type, no
value, not passed). -/
def Argument.new (name : String) : Argument :=
  { name := name
    ty := ArgType.Tensor { elem_type := ElementType.Float32, dim := 0, shape := none }
    value := none
    passed := false }

/-- Modelled from the spec: `Argument::copy_value` in the out-of-scope `ir.rs`
copies the concrete value and type of another argument onto this one. -/
def Argument.copy_value (self other : Argument) : Argument :=
  { self with ty := other.ty, value := other.value }

/-- Operator kinds (`NodeType` in `ir.rs`): the seven kinds of the constant
lift set, the kinds the pipeline special-cases, and generic operator kinds. -/
inductive NodeType : Type where
  | BatchNormalization
  | Clip
  | Conv1d
  | Conv2d
  | Dropout
  | Reshape
  | Unsqueeze
  | Constant
  | Identity
  | Relu
  | Gemm
deriving DecidableEq

/-- Modelled from the spec: the lowercase operator-kind tag used for final
node names (`format!` on the `Display` of `NodeType`, then `to_lowercase`;
the `Display` impl lives in the out-of-scope `ir.rs`). -/
def NodeType.lowerTag : NodeType → String
  | NodeType.BatchNormalization => "batchnormalization"
  | NodeType.Clip => "clip"
  | NodeType.Conv1d => "conv1d"
  | NodeType.Conv2d => "conv2d"
  | NodeType.Dropout => "dropout"
  | NodeType.Reshape => "reshape"
  | NodeType.Unsqueeze => "unsqueeze"
  | NodeType.Constant => "constant"
  | NodeType.Identity => "identity"
  | NodeType.Relu => "relu"
  | NodeType.Gemm => "gemm"

/-- One operator application (`Node` in `ir.rs`): kind, name, ordered inputs,
ordered outputs, attribute mapping. -/
structure Node : Type where
  node_type : NodeType
  name : String
  inputs : List Argument
  outputs : List Argument
  attrs : List (String × AttributeValue)
deriving DecidableEq

/-- An initializer tensor of the file (`TensorProto`): name, type, literal
data. -/
structure TensorProto : Type where
  name : String
  ty : ArgType
  data : Data
deriving DecidableEq

/-- Modelled from the spec: `Argument::from_initializer` in the out-of-scope
`ir.rs` builds the constant Argument for an initializer tensor. -/
def Argument.from_initializer (x : TensorProto) : Argument :=
  { name := x.name, ty := x.ty, value := some x.data, passed := false }

/-- A declared graph input or output (`ValueInfoProto`): name and type. -/
structure ValueInfoProto : Type where
  name : String
  ty : ArgType
deriving DecidableEq

/-- Modelled from the spec: `Argument::try_from(ValueInfoProto)` in the
out-of-scope proto conversion builds the boundary Argument (declared
inputs/outputs carry no literal value). -/
def Argument.try_from_value_info (x : ValueInfoProto) : Argument :=
  { name := x.name, ty := x.ty, value := none, passed := false }

/-- A raw file node (`NodeProto`): operator kind tag, name, input name list,
output name list, attribute mapping. -/
structure NodeProto : Type where
  op_type : NodeType
  name : String
  input : List String
  output : List String
  attrs : List (String × AttributeValue)
deriving DecidableEq

/-- The file graph (`GraphProto`): ordered nodes, declared inputs and outputs,
initializer tensors. -/
structure GraphProto : Type where
  node : List NodeProto
  input : List ValueInfoProto
  output : List ValueInfoProto
  initializer : List TensorProto
deriving DecidableEq

/-- The deserialized container (`ModelProto`). -/
structure ModelProto : Type where
  graph : GraphProto
deriving DecidableEq

/-- The registry entry `IOEntry`: tags a name as a graph input, graph output, or prior node
output, by index into the corresponding backing vector. -/
inductive IoEntry : Type where
  | In ( i : Nat)
  | Out ( i : Nat)
  | Node ( i : Nat)
deriving DecidableEq

/-- The name-resolution registry `OnnxGraphIO`. -/
structure OnnxGraphIo : Type where
  inputs : List Argument
  outputs : List Argument
  initializers : List (String × Argument)
  node_out : List Argument
  old_io_names : List (String × IoEntry)
deriving DecidableEq

/-- The recoverable-by-contract registry error `GraphIOError`. -/
inductive GraphIoError : Type where
  | InvalidGraphError
deriving DecidableEq

/-- Fatal abort conditions of the parse (Rust panics). -/
inductive Panic : Type where
  /-- Out-of-bounds slice indexing. -/
  | indexOutOfBounds
  /-- A call of `Result::unwrap` on an `Err` value. -/
  | unwrapErr
  /-- A call of `Option::unwrap` on a `None` value. -/
  | unwrapNone
  /-- The `expect` in `convert_constant_value`: the constant has no value. -/
  | constantNoValue
  /-- The `check_validity` assertion: nodes are not topologically sorted. -/
  | nodesNotSorted
deriving DecidableEq

/-- The final IR graph handed to code generation (`OnnxGraph`). -/
structure OnnxGraph : Type where
  nodes : List Node
  inputs : List Argument
  outputs : List Argument
deriving DecidableEq

/-- The initializer constants map (the iterator collect inside
`OnnxGraphIO::new`): initializer name to constant Argument, later duplicates
winning. -/
def initializer_map (initializers : List TensorProto) : List (String × Argument) :=
  initializers.foldl (fun m x => (x.name, Argument.from_initializer x) :: m) []

/-- Construction of the registry (`OnnxGraphIO::new`): declared inputs are
renamed to positional placeholders `input1`, `input2`, ... and merged with an
initializer of the same original name when they lack a value; declared outputs
are registered as `Out` entries; the initializer constants map is kept
separately. -/
def OnnxGraphIo.new (inputs : List ValueInfoProto) (outputs : List ValueInfoProto)
    (initializers : List TensorProto) : OnnxGraphIo :=
  let constants : List (String × Argument) := initializer_map initializers
  let names_in : List (String × IoEntry) :=
    (inputs.enum.map (fun p => (p.2.name, IoEntry.In p.1))).reverse
  let names_out : List (String × IoEntry) :=
    (outputs.enum.map (fun p => (p.2.name, IoEntry.Out p.1))).reverse
  let in_args : List Argument :=
    inputs.enum.map (fun p =>
      let arg := Argument.try_from_value_info p.2
      let arg :=
        match alookup constants p.2.name with
        | some initial_arg => if arg.value = none then arg.copy_value initial_arg else arg
        | none => arg
      { arg with name := "input" ++ Nat.repr (p.1 + 1) })
  let out_args : List Argument := outputs.map Argument.try_from_value_info
  { inputs := in_args
    outputs := out_args
    initializers := constants
    node_out := []
    old_io_names := names_out ++ names_in }

/-- Registry rename (`OnnxGraphIO::update_name`): renaming a graph input is
illegal, graph outputs and pooled node outputs are renamed in place, and an
unmapped name is an error. On an error nothing was mutated, so only the
success case returns an updated registry. -/
def OnnxGraphIo.update_name (gio : OnnxGraphIo) (arg : Argument) (new_name : String) :
    Except GraphIoError OnnxGraphIo :=
  match alookup gio.old_io_names arg.name with
  | some (IoEntry.In _) => Except.error GraphIoError.InvalidGraphError
  | some (IoEntry.Out i) =>
      Except.ok { gio with outputs := modifyAt gio.outputs i (fun a => { a with name := new_name }) }
  | some (IoEntry.Node i) =>
      Except.ok { gio with node_out := modifyAt gio.node_out i (fun a => { a with name := new_name }) }
  | none => Except.error GraphIoError.InvalidGraphError

/-- Input initialization for freshly converted nodes (`OnnxGraphIO::init_in`):
an unknown name falls back to the initializer constants and otherwise to a
fresh unset Argument; a graph input is cloned with `passed` set on the clone; a
prior node output is cloned under the old name; a graph output is an error. -/
def OnnxGraphIo.init_in (gio : OnnxGraphIo) (proto_str : String) :
    Except GraphIoError Argument :=
  match alookup gio.old_io_names proto_str with
  | none =>
      match alookup gio.initializers proto_str with
      | some init_arg => Except.ok init_arg
      | none => Except.ok (Argument.new proto_str)
  | some (IoEntry.In i) =>
      match gio.inputs.get? i with
      | some arg => Except.ok { arg with name := proto_str, passed := true }
      | none => Except.ok (Argument.new proto_str)
  | some (IoEntry.Node i) =>
      match gio.node_out.get? i with
      | some arg => Except.ok { arg with name := proto_str }
      | none => Except.ok (Argument.new proto_str)
  | some (IoEntry.Out _) => Except.error GraphIoError.InvalidGraphError

/-- Insert-or-rename for Constant/Identity outputs (`OnnxGraphIO::insert`):
if the name maps to a node-output slot still carrying the same name, rename in
place; otherwise (after logging when the entry is a graph input/output)
allocate a brand-new node-output slot under the new name. -/
def OnnxGraphIo.insert (gio : OnnxGraphIo) (arg : Argument) (new_name : String) :
    OnnxGraphIo :=
  let fallthrough : OnnxGraphIo :=
    { gio with
      old_io_names := (arg.name, IoEntry.Node gio.node_out.length) :: gio.old_io_names
      node_out := gio.node_out ++ [{ arg with name := new_name }] }
  match alookup gio.old_io_names arg.name with
  | some (IoEntry.Node idx) =>
      match gio.node_out.get? idx with
      | some pooled =>
          if pooled.name = arg.name then
            { gio with node_out := modifyAt gio.node_out idx (fun a => { a with name := new_name }) }
          else fallthrough
      | none => fallthrough
  | _ => fallthrough

/-- Propagation of a node's outputs into the registry
(`OnnxGraphIO::update_tensor_output`): value/type are copied onto a matching
graph input; onto a matching graph output together with `passed := true`; a
match on a prior node output is only logged; an unmatched name registers a new
node-output slot. -/
def OnnxGraphIo.update_tensor_output (gio : OnnxGraphIo) (node : Node) : OnnxGraphIo :=
  node.outputs.foldl
    (fun gio node_output =>
      match alookup gio.old_io_names node_output.name with
      | some (IoEntry.In i) =>
          { gio with inputs := modifyAt gio.inputs i (fun a => a.copy_value node_output) }
      | some (IoEntry.Out i) =>
          { gio with
            outputs := modifyAt gio.outputs i
              (fun a => { a.copy_value node_output with passed := true }) }
      | some (IoEntry.Node _) => gio
      | none =>
          { gio with
            old_io_names := (node_output.name, IoEntry.Node gio.node_out.length) :: gio.old_io_names
            node_out := gio.node_out ++ [node_output] })
    gio

/-- Boundary lookup for the unsqueeze rewrite (`OnnxGraphIO::get_node_output`):
returns the graph input or output Argument registered under the old name, an
error when the name belongs to a prior node output, and nothing when the name
is unknown. -/
def OnnxGraphIo.get_node_output (gio : OnnxGraphIo) (old_name : String) :
    Except GraphIoError (Option Argument) :=
  match alookup gio.old_io_names old_name with
  | some (IoEntry.In i) => Except.ok (gio.inputs.get? i)
  | some (IoEntry.Out i) => Except.ok (gio.outputs.get? i)
  | some (IoEntry.Node _) => Except.error GraphIoError.InvalidGraphError
  | none => Except.ok none

/-- Updated-name lookup for node inputs (`OnnxGraphIO::get_new_name`): a graph
input with an associated initializer resolves to no name; a plain graph input
is marked `passed` and resolves to its positional name; a graph output is an
error; a prior node output resolves to its current pooled name; an unknown
name resolves to no name. Returns the (possibly mutated) registry together
with the optional name. -/
def OnnxGraphIo.get_new_name (gio : OnnxGraphIo) (old_name : String) :
    Except GraphIoError (OnnxGraphIo × Option String) :=
  match alookup gio.old_io_names old_name with
  | some (IoEntry.In i) =>
      if (alookup gio.initializers old_name).isSome then
        Except.ok (gio, none)
      else
        match gio.inputs.get? i with
        | some arg =>
            Except.ok
              ({ gio with inputs := modifyAt gio.inputs i (fun a => { a with passed := true }) },
               some arg.name)
        | none => Except.ok (gio, none)
  | some (IoEntry.Out _) => Except.error GraphIoError.InvalidGraphError
  | some (IoEntry.Node i) =>
      match gio.node_out.get? i with
      | some arg => Except.ok (gio, some arg.name)
      | none => Except.ok (gio, none)
  | none => Except.ok (gio, none)

/-- The fixed set of operator kinds whose constant operands must be literal
(`LIFT_CONSTANTS_FOR_NODE_TYPES`). -/
def LIFT_CONSTANTS_FOR_NODE_TYPES : List NodeType :=
  [NodeType.BatchNormalization, NodeType.Clip, NodeType.Conv1d, NodeType.Conv2d,
   NodeType.Dropout, NodeType.Reshape, NodeType.Unsqueeze]

/-- The mutable per-parse state of `ONNXGraphBuilder` (minus the path): the
`nodes` field (which `build` never pushes to, accumulating into a local vector
instead), the per-kind name counters, the removal index set, the
constants-by-output-name map and the identity-by-output-name map. -/
structure BuilderState : Type where
  nodes : List Node
  node_name_counter : List (NodeType × Nat)
  nodes_to_remove : List Nat
  constants_map : List (String × Nat)
  identity_idx : List (String × Nat)
deriving DecidableEq

/-- The fresh builder state (`ONNXGraphBuilder::new`). -/
def BuilderState.new : BuilderState :=
  { nodes := []
    node_name_counter := []
    nodes_to_remove := []
    constants_map := []
    identity_idx := [] }

/-- Resolution of a raw node's input name list through the registry resolve
operation, in order (the iterator collect inside `convert_node_proto`). -/
def init_inputs (gio : OnnxGraphIo) : List String → Except GraphIoError (List Argument)
  | [] => Except.ok []
  | x :: rest => do
      let a ← gio.init_in x
      let r ← init_inputs gio rest
      Except.ok (a :: r)

/-- Modelled from the spec: `convert_node_proto` (out-of-scope
`proto_conversion.rs`) builds the raw node, resolving each input name through
the registry resolve operation (`init_in`, which is in scope) and creating a
fresh Argument for each output name; `build` unwraps the result, so a
resolution error is a fatal abort. -/
def convert_node_proto (node : NodeProto) (gio : OnnxGraphIo) :
    Except GraphIoError Node := do
  let inputs ← init_inputs gio node.input
  Except.ok
    { node_type := node.op_type
      name := node.name
      inputs := inputs
      outputs := node.output.map Argument.new
      attrs := node.attrs }

/-- Modelled from the spec: `fallback_convert_node_proto` (out-of-scope
`proto_conversion.rs`) bypasses type remap and coalescing because the
topological check only needs node identity and I/O names; every input and
output is a fresh Argument under the file-supplied name. -/
def fallback_convert_node_proto (node : NodeProto) : Node :=
  { node_type := node.op_type
    name := node.name
    inputs := node.input.map Argument.new
    outputs := node.output.map Argument.new
    attrs := node.attrs }

/-- Modelled from the spec: `remap_node_type` (out-of-scope `node_remap.rs`)
is a pure rewrite of the operator kind by the legacy-name alias table; none of
the embedded kinds is an alias, so it is the identity here. -/
def remap_node_type (node : Node) : Node := node

/-- Modelled from the spec: `coalesce` (out-of-scope `coalesce.rs`) may fuse a
multi-node pattern, greedily consuming following raw nodes through the
peekable cursor; none of the embedded kinds is part of a fused pattern, so it
consumes zero nodes (the cursor over the remaining raw nodes is unchanged)
and leaves the node unchanged. -/
def coalesce (node : Node) (_rest : List NodeProto) (_gio : OnnxGraphIo) : Node := node

/-- Final node naming (`ONNXGraphBuilder::handle_node_renaming`): bump the
per-kind counter (starting at 1) and set the name to the lowercase kind tag
followed by the counter. -/
def handle_node_renaming (st : BuilderState) (node : Node) : BuilderState × Node :=
  let count :=
    match alookup st.node_name_counter node.node_type with
    | some e => e + 1
    | none => 1
  let st := { st with node_name_counter := (node.node_type, count) :: st.node_name_counter }
  (st, { node with name := node.node_type.lowerTag ++ Nat.repr count })

/-- Input rewriting for identity elision: an input whose name matches a
recorded Identity output is renamed to that Identity node's first input name,
read from the builder's `nodes` field (`self.nodes[*identity_idx].inputs[0]`,
a panic when either index is out of bounds). -/
def rewrite_identity_input (st : BuilderState) (x : Argument) : Except Panic Argument :=
  match alookup st.identity_idx x.name with
  | none => Except.ok x
  | some identity_idx =>
      match st.nodes.get? identity_idx with
      | none => Except.error Panic.indexOutOfBounds
      | some n =>
          match n.inputs.get? 0 with
          | none => Except.error Panic.indexOutOfBounds
          | some inp => Except.ok { x with name := inp.name }

/-- The identity-rewriting pass over a node's whole input list. -/
def rewrite_identity_inputs (st : BuilderState) : List Argument → Except Panic (List Argument)
  | [] => Except.ok []
  | x :: rest => do
      let a ← rewrite_identity_input st x
      let r ← rewrite_identity_inputs st rest
      Except.ok (a :: r)

/-- Identity elision (`ONNXGraphBuilder::handle_identity`): an Identity node
whose first input lacks a value is recorded by output name and marked for
removal; any other node has each input name matching a recorded Identity
output rewritten through `rewrite_identity_input`. Rust indexes
`node.inputs[0]` and `node.outputs[0]` directly, so a missing element is a
panic. -/
def handle_identity (st : BuilderState) (node : Node) (i : Nat) :
    Except Panic (BuilderState × Node) :=
  if node.node_type = NodeType.Identity then
    match node.inputs.get? 0 with
    | none => Except.error Panic.indexOutOfBounds
    | some first =>
        if first.value = none then
          match node.outputs.get? 0 with
          | none => Except.error Panic.indexOutOfBounds
          | some out0 =>
              Except.ok
                ({ st with
                   identity_idx := (out0.name, i) :: st.identity_idx
                   nodes_to_remove := i :: st.nodes_to_remove },
                 node)
        else do
          let inputs ← rewrite_identity_inputs st node.inputs
          Except.ok (st, { node with inputs := inputs })
  else do
    let inputs ← rewrite_identity_inputs st node.inputs
    Except.ok (st, { node with inputs := inputs })

/-- The ordered list of attribute keys that may carry a constant's value, and
the first-present lookup, from `convert_constant_value`. -/
def find_value_attr (attrs : List (String × AttributeValue)) :
    List String → Option AttributeValue
  | [] => none
  | key :: keys =>
      match alookup attrs key with
      | some v => some v
      | none => find_value_attr attrs keys

/-- Modelled from the spec: the `From<AttributeValue>` conversion to an
`Argument` in the out-of-scope `ir.rs`, for the embedded attribute variants
(an integer list becomes a rank-one Int64 tensor literal; an integer becomes
an Int64 scalar literal). -/
def Argument.from_attr : AttributeValue → Argument
  | AttributeValue.Ints l =>
      { name := ""
        ty := ArgType.Tensor { elem_type := ElementType.Int64, dim := 1, shape := some [l.length] }
        value := some (Data.Int64s l)
        passed := false }
  | AttributeValue.IntVal i =>
      { name := ""
        ty := ArgType.Scalar ElementType.Int64
        value := some (Data.Int64 i)
        passed := false }

/-- The value of a constant node from its attributes
(`convert_constant_value`): the first present key of the fixed ordered key set
wins; a constant with none of the keys is a fatal `expect` failure. -/
def convert_constant_value (node : Node) : Except Panic Argument :=
  let keys := ["value", "value_float", "value_floats", "value_int", "value_ints",
               "value_string", "value_strings", "sparse_value"]
  match find_value_attr node.attrs keys with
  | some value => Except.ok (Argument.from_attr value)
  | none => Except.error Panic.constantNoValue

/-- One step of the constant-lifting scan (`ONNXGraphBuilder::check_constants`,
inner loop body): an input whose name is a recorded constant output copies the
literal value and type from the builder's `nodes` field (a panic when the
recorded index is out of bounds of that never-pushed vector), preferring the
constant node's own first input when that carries a value (the
Identity-sourced case), and marks the constant node for removal. -/
def lift_constant_input (st : BuilderState) (input : Argument) :
    Except Panic (BuilderState × Argument) :=
  match alookup st.constants_map input.name with
  | none => Except.ok (st, input)
  | some const_idx =>
      match st.nodes.get? const_idx with
      | none => Except.error Panic.indexOutOfBounds
      | some constant => do
          let input ←
            match constant.inputs.get? 0 with
            | some cin0 =>
                if cin0.value.isSome then
                  Except.ok { input with value := cin0.value, ty := cin0.ty }
                else do
                  let arg ← convert_constant_value constant
                  Except.ok { input with value := arg.value, ty := arg.ty }
            | none => do
                let arg ← convert_constant_value constant
                Except.ok { input with value := arg.value, ty := arg.ty }
          Except.ok ({ st with nodes_to_remove := const_idx :: st.nodes_to_remove }, input)

/-- The constant-lifting scan over all inputs after the first. -/
def lift_constants_loop (st : BuilderState) :
    List Argument → Except Panic (BuilderState × List Argument)
  | [] => Except.ok (st, [])
  | input :: rest => do
      let (st, input) ← lift_constant_input st input
      let (st, rest) ← lift_constants_loop st rest
      Except.ok (st, input :: rest)

/-- Constant registration and lifting (`ONNXGraphBuilder::check_constants`): a
Constant node, or an Identity node whose first input carries a value, records
its first output name in the constants map under the current node index; a
node of a lift-set kind has every input after the first scanned by
`lift_constant_input`. The unused registry argument mirrors the Rust
`_graph_io` parameter. -/
def check_constants (st : BuilderState) (node : Node) (i : Nat) (_gio : OnnxGraphIo) :
    Except Panic (BuilderState × Node) :=
  if node.node_type = NodeType.Constant then
    match node.outputs.get? 0 with
    | none => Except.error Panic.indexOutOfBounds
    | some out0 =>
        Except.ok ({ st with constants_map := (out0.name, i) :: st.constants_map }, node)
  else if node.node_type = NodeType.Identity then
    match node.inputs.get? 0 with
    | none => Except.error Panic.indexOutOfBounds
    | some in0 =>
        if in0.value.isSome then
          match node.outputs.get? 0 with
          | none => Except.error Panic.indexOutOfBounds
          | some out0 =>
              Except.ok ({ st with constants_map := (out0.name, i) :: st.constants_map }, node)
        else Except.ok (st, node)
  else if node.node_type ∈ LIFT_CONSTANTS_FOR_NODE_TYPES then
    match node.inputs with
    | [] => Except.ok (st, node)
    | first :: rest => do
        let (st, rest) ← lift_constants_loop st rest
        Except.ok (st, { node with inputs := first :: rest })
  else Except.ok (st, node)

/-- The unsqueeze-to-reshape rewrite (`remap_unsqueeze_to_reshape`): when both
the node's first output and the boundary argument are tensors, the boundary
shape is unwrapped (a panic when it has no concrete shape), a literal Int64
list Argument named from the node is synthesized as the new second input (not
marked passed), the first output is replaced by the boundary argument, and the
node kind becomes Reshape. -/
def remap_unsqueeze_to_reshape (node : Node) (out_arg : Argument) : Except Panic Node :=
  match node.outputs.get? 0 with
  | none => Except.ok node
  | some out0 =>
      match out0.ty with
      | ArgType.Tensor _ =>
          match out_arg.ty with
          | ArgType.Tensor arg_tensor =>
              match arg_tensor.shape with
              | none => Except.error Panic.unwrapNone
              | some shp =>
                  let inner : List Int := shp.map (fun x => Int.ofNat x)
                  let shape_len := inner.length
                  let rhs_arg : Argument :=
                    { name := node.name ++ "_generated_const"
                      ty := ArgType.Tensor
                        { elem_type := ElementType.Int64, dim := 1, shape := some [shape_len] }
                      value := some (Data.Int64s inner)
                      passed := false }
                  Except.ok
                    { node with
                      node_type := NodeType.Reshape
                      inputs := modifyAt node.inputs 1 (fun _ => rhs_arg)
                      outputs := modifyAt node.outputs 0 (fun _ => out_arg) }
          | _ => Except.ok node
      | _ => Except.ok node

/-- The topological-order predicate (`TopologicalSortable::is_top_sorted`):
build the name-to-position map (later duplicates win, as for the hash map),
then require, for every node output consumed by some node, that the producer
position does not exceed the consumer position. -/
def is_top_sorted (nodes : List Node) : Bool :=
  let position : List (String × Nat) :=
    nodes.enum.foldl (fun m p => (p.2.name, p.1) :: m) []
  nodes.all (fun node =>
    node.outputs.all (fun output =>
      nodes.all (fun other_node =>
        if decide (output ∈ other_node.inputs) then
          decide ((alookup position node.name).getD 0 ≤ (alookup position other_node.name).getD 0)
        else true)))

/-- The validity check (`check_validity`): re-read the model, convert every
node through the fallback conversion, and assert topological order; violation
is a fatal abort. -/
def check_validity (m : ModelProto) : Except Panic Unit :=
  let nodes := m.graph.node.map fallback_convert_node_proto
  if is_top_sorted nodes then Except.ok () else Except.error Panic.nodesNotSorted

/-- The unsqueeze rewrite driver (`ONNXGraphBuilder::handle_unsqueeze`): an
Unsqueeze node (a panic when it has no second input) whose second input lacks
a value is rewritten to a Reshape when its first output name resolves to a
graph boundary argument; a registry error triggers the validity check as a
diagnostic and otherwise continues with the node unchanged. -/
def handle_unsqueeze (node : Node) (gio : OnnxGraphIo) (m : ModelProto) :
    Except Panic Node :=
  if node.node_type = NodeType.Unsqueeze then
    match node.inputs.get? 1 with
    | none => Except.error Panic.indexOutOfBounds
    | some rhs =>
        if rhs.value = none then
          match node.outputs.get? 0 with
          | none => Except.error Panic.indexOutOfBounds
          | some out0 =>
              match gio.get_node_output out0.name with
              | Except.ok (some in_arg) => remap_unsqueeze_to_reshape node in_arg
              | Except.error _ => do
                  check_validity m
                  Except.ok node
              | Except.ok none => Except.ok node
        else Except.ok node
  else Except.ok node

/-- Modelled from the spec: `dim_inference` (out-of-scope `dim_inference.rs`)
computes per-operator output types (out of scope, and assumed not to alter the
node here) and then propagates the node's outputs into the registry through
the in-scope `update_tensor_output`. -/
def dim_inference (node : Node) (gio : OnnxGraphIo) : Node × OnnxGraphIo :=
  (node, gio.update_tensor_output node)

/-- The input half of `rename_io`: each input is resolved through
`get_new_name`; a resolved name is adopted with `passed := true`; no-name
clears the input's name and marks it unpassed; a registry error runs the
validity diagnostic (aborting only if it fails) and leaves the input
unchanged. -/
def rename_io_inputs (gio : OnnxGraphIo) (m : ModelProto) :
    List Argument → Except Panic (OnnxGraphIo × List Argument)
  | [] => Except.ok (gio, [])
  | input :: rest =>
      match gio.get_new_name input.name with
      | Except.ok (gio', some input_name) => do
          let (gio'', rest') ← rename_io_inputs gio' m rest
          Except.ok (gio'', { input with passed := true, name := input_name } :: rest')
      | Except.ok (gio', none) => do
          let (gio'', rest') ← rename_io_inputs gio' m rest
          Except.ok (gio'', { input with name := "", passed := false } :: rest')
      | Except.error _ => do
          check_validity m
          let (gio'', rest') ← rename_io_inputs gio m rest
          Except.ok (gio'', input :: rest')

/-- The non-Constant output renaming loop of `rename_io`: each output is
renamed to the node name followed by `_out` and the 1-based position; the
result of the registry `update_name` call is discarded, so a failed registry
rename leaves the registry untouched while the node output is still renamed
locally. -/
def rename_outputs_loop (gio : OnnxGraphIo) (node_name : String) (out_count : Nat) :
    List Argument → OnnxGraphIo × List Argument
  | [] => (gio, [])
  | output :: rest =>
      let new_name := node_name ++ "_out" ++ Nat.repr out_count
      let gio :=
        match gio.update_name output new_name with
        | Except.ok g => g
        | Except.error _ => gio
      let (gio', rest') := rename_outputs_loop gio node_name (out_count + 1) rest
      (gio', { output with name := new_name } :: rest')

/-- The output half of `rename_io`: a Constant or Identity node has its single
output renamed through the registry `insert` operation (a panic when it has no
output); any other node has every output renamed through `rename_outputs_loop`. -/
def rename_io_outputs (gio : OnnxGraphIo) (node : Node) :
    Except Panic (OnnxGraphIo × Node) :=
  if node.node_type = NodeType.Constant ∨ node.node_type = NodeType.Identity then
    match node.outputs.get? 0 with
    | none => Except.error Panic.indexOutOfBounds
    | some out0 =>
        let new_name := node.name ++ "_out1"
        let gio := gio.insert out0 new_name
        Except.ok
          (gio, { node with outputs := modifyAt node.outputs 0 (fun a => { a with name := new_name }) })
  else
    let (gio', outputs') := rename_outputs_loop gio node.name 1 node.outputs
    Except.ok (gio', { node with outputs := outputs' })

/-- Input/output name resolution (`rename_io`): resolve and rewrite the inputs
against the registry, then rename the outputs. -/
def rename_io (node : Node) (gio : OnnxGraphIo) (m : ModelProto) :
    Except Panic (Node × OnnxGraphIo) := do
  let (gio, inputs) ← rename_io_inputs gio m node.inputs
  let node := { node with inputs := inputs }
  let (gio, node) ← rename_io_outputs gio node
  Except.ok (node, gio)

/-- The final prune (`remove_unused_graph_inputs`): drop every graph input and
output never marked `passed`. -/
def remove_unused_graph_inputs (inputs outputs : List Argument) :
    List Argument × List Argument :=
  (inputs.filter (fun input => input.passed), outputs.filter (fun output => output.passed))

/-- The final retain pass of `build`: drop every accumulated node whose
file-order index is in the removal set. -/
def retain_by_index (rm : List Nat) (nodes : List Node) : List Node :=
  (nodes.enum.filter (fun p => decide (¬ p.1 ∈ rm))).map (fun p => p.2)

/-- The front of the per-node pipeline, up to the point where
`handle_unsqueeze` receives the node: raw conversion (unwrapped, so a
resolution error is a fatal abort), type remap, coalescing, node renaming,
identity elision and constant lifting. -/
def pre_unsqueeze_stages (st : BuilderState) (gio : OnnxGraphIo) (and_idx : Nat)
    (node_proto : NodeProto) (rest : List NodeProto) :
    Except Panic (BuilderState × Node) := do
  let node ←
    match convert_node_proto node_proto gio with
    | Except.ok n => Except.ok n
    | Except.error _ => Except.error Panic.unwrapErr
  let node := remap_node_type node
  let node := coalesce node rest gio
  let (st, node) := handle_node_renaming st node
  let (st, node) ← handle_identity st node and_idx
  check_constants st node and_idx gio

/-- The whole per-node pipeline (`ONNXGraphBuilder::build`, loop body): the
front stages, then the unsqueeze rewrite, dimension inference with registry
propagation, and I/O resolution. -/
def process_node (m : ModelProto) (st : BuilderState) (gio : OnnxGraphIo) (and_idx : Nat)
    (node_proto : NodeProto) (rest : List NodeProto) :
    Except Panic (BuilderState × OnnxGraphIo × Node) := do
  let (st, node) ← pre_unsqueeze_stages st gio and_idx node_proto rest
  let node ← handle_unsqueeze node gio m
  let (node, gio) := dim_inference node gio
  let (node, gio) ← rename_io node gio m
  Except.ok (st, gio, node)

/-- The accumulation loop of `ONNXGraphBuilder::build`: the per-node pipeline
in strict file order, accumulating the processed node and bumping the node
index. -/
def build_loop (m : ModelProto) (st : BuilderState) (gio : OnnxGraphIo) (and_idx : Nat)
    (acc : List Node) : List NodeProto → Except Panic (BuilderState × OnnxGraphIo × List Node)
  | [] => Except.ok (st, gio, acc)
  | node_proto :: rest => do
      let (st, gio, node) ← process_node m st gio and_idx node_proto rest
      build_loop m st gio (and_idx + 1) (acc ++ [node]) rest

/-- Graph construction (`ONNXGraphBuilder::build`): seed the registry from the
file's declared inputs, outputs and initializers, run the per-node pipeline in
strict file order, physically drop the removal set, prune unused graph inputs
and outputs, and emit the final IR graph. -/
def build (m : ModelProto) : Except Panic OnnxGraph := do
  let gio := OnnxGraphIo.new m.graph.input m.graph.output m.graph.initializer
  let (st, gio, nodes) ← build_loop m BuilderState.new gio 0 [] m.graph.node
  let nodes := retain_by_index st.nodes_to_remove nodes
  let (inputs, outputs) := remove_unused_graph_inputs gio.inputs gio.outputs
  Except.ok { nodes := nodes, inputs := inputs, outputs := outputs }

/-- The public entry point (`parse_onnx`): open and deserialize the file (out
of scope; the model value stands for the file) and build the IR graph. -/
def parse_onnx (m : ModelProto) : Except Panic OnnxGraph := build m

/-! ## Concrete models used by the claim theorems -/

/-- A rank-one float tensor type used by the concrete models. -/
def tyF1 : ArgType :=
  ArgType.Tensor { elem_type := ElementType.Float32, dim := 1, shape := some [2] }

/-- A model whose only graph input `x` also appears as an initializer with a
literal tensor value, and is consumed by the single Relu node. -/
def model_c1 : ModelProto :=
  ⟨⟨[⟨NodeType.Relu, "n1", ["x"], ["y"], []⟩],
    [⟨"x", tyF1⟩], [⟨"y", tyF1⟩], [⟨"x", tyF1, Data.Int64s [5]⟩]⟩⟩

/-- A two-node model violating topological order: the first node consumes the
second node's output `u`. -/
def model_c2 : ModelProto :=
  ⟨⟨[⟨NodeType.Relu, "n1", ["u"], ["y"], []⟩, ⟨NodeType.Relu, "n2", ["x"], ["u"], []⟩],
    [⟨"x", tyF1⟩], [⟨"y", tyF1⟩], []⟩⟩

/-- A model where a Constant node holding `value_ints = [2,3]` produces the
shape operand of a Reshape node. -/
def model_c3 : ModelProto :=
  ⟨⟨[⟨NodeType.Constant, "c", [], ["cout"], [("value_ints", AttributeValue.Ints [2, 3])]⟩,
     ⟨NodeType.Reshape, "r", ["x", "cout"], ["y"], []⟩],
    [⟨"x", tyF1⟩], [⟨"y", tyF1⟩], []⟩⟩

/-- A model with `Identity(x) -> i` where `i` is consumed by a later Relu
node and `x` carries no literal value. -/
def model_c4 : ModelProto :=
  ⟨⟨[⟨NodeType.Identity, "id", ["x"], ["i"], []⟩, ⟨NodeType.Relu, "r", ["i"], ["y"], []⟩],
    [⟨"x", tyF1⟩], [⟨"y", tyF1⟩], []⟩⟩

/-! ## C2 -/

/-- C2: the claim says a file with two nodes where the second node's output is
consumed by the first causes a fatal abort with no IR graph returned, and the
`parse_onnx` doc comment likewise promises a panic when nodes are not
topologically sorted; but on `model_c2` the build completes and returns a
graph, even though the code's own topological-order predicate (over the
fallback-converted nodes, exactly as `check_validity` would run it) rejects
the file — the check runs only on registry-error diagnostic paths, and no
such error arises here. -/
theorem c2_code_bug :
    (build model_c2).isOk = true ∧
      is_top_sorted (model_c2.graph.node.map fallback_convert_node_proto) = false := by
  constructor
  · rfl
  · rfl

/-! ## C3 -/

/-- C3: the claim (and the spec's constant-lifting design) says the Reshape
node ends up carrying the literal `[2,3]` and the Constant node is dropped;
instead the build panics with an out-of-bounds index, because
`check_constants` reads the constant node from the builder's `nodes` field,
which `build` never pushes to (it accumulates into a local vector). -/
theorem c3_code_bug : build model_c3 = Except.error Panic.indexOutOfBounds := by rfl

/-! ## C4 -/

/-- C4: the claim (and the spec's identity-elision design) says the later node
ends up consuming a resolved form of `x` directly with the Identity node gone;
instead the build panics with an out-of-bounds index, because
`handle_identity` reads the recorded Identity node from the builder's `nodes`
field, which `build` never pushes to (it accumulates into a local vector). -/
theorem c4_code_bug : build model_c4 = Except.error Panic.indexOutOfBounds := by rfl

/-! ## Generic helper lemmas -/

theorem alookup_cons {κ α : Type} [DecidableEq κ] (k : κ) (v : α) (l : List (κ × α)) (key : κ) :
    alookup ((k, v) :: l) key = if k = key then some v else alookup l key := rfl

theorem mem_of_alookup_eq_some {κ α : Type} [DecidableEq κ] {l : List (κ × α)} {key : κ} {v : α}
    (h : alookup l key = some v) : (key, v) ∈ l := by
  induction l with
  | nil => simp [alookup] at h
  | cons p rest ih =>
      obtain ⟨k, w⟩ := p
      rw [alookup] at h
      by_cases hk : k = key
      · subst hk
        rw [if_pos rfl] at h
        cases h
        exact List.mem_cons_self _ _
      · rw [if_neg hk] at h
        exact List.mem_cons_of_mem _ (ih h)

theorem alookup_append {κ α : Type} [DecidableEq κ] (l₁ l₂ : List (κ × α)) (key : κ) :
    alookup (l₁ ++ l₂) key =
      match alookup l₁ key with
      | some v => some v
      | none => alookup l₂ key := by
  induction l₁ with
  | nil => simp [alookup]
  | cons p rest ih =>
      obtain ⟨k, w⟩ := p
      by_cases hk : k = key
      · subst hk
        simp [alookup]
      · simp only [List.cons_append, alookup, if_neg hk]
        exact ih

theorem length_modifyAt {α : Type} (l : List α) (i : Nat) (f : α → α) :
    (modifyAt l i f).length = l.length := by
  induction l generalizing i with
  | nil => rfl
  | cons a rest ih =>
      cases i with
      | zero => rfl
      | succ n => simpa [modifyAt] using ih n

theorem get?_modifyAt {α : Type} (l : List α) (i : Nat) (f : α → α) (j : Nat) :
    (modifyAt l i f).get? j = if i = j then (l.get? j).map f else l.get? j := by
  induction l generalizing i j with
  | nil => simp [modifyAt]
  | cons a rest ih =>
      cases i with
      | zero =>
          cases j with
          | zero => simp [modifyAt]
          | succ jn => simp [modifyAt]
      | succ n =>
          cases j with
          | zero => simp [modifyAt]
          | succ jn =>
              simpa [modifyAt, Nat.succ_inj] using ih n jn

theorem init_inputs_length (gio : OnnxGraphIo) :
    ∀ (xs : List String) (ys : List Argument),
      init_inputs gio xs = Except.ok ys → ys.length = xs.length := by
  intro xs
  induction xs with
  | nil =>
      intro ys h
      cases h
      rfl
  | cons x rest ih =>
      intro ys h
      rw [init_inputs] at h
      cases hx : gio.init_in x with
      | error e => rw [hx] at h; exact absurd h (by simp [bind, Except.bind])
      | ok a =>
          rw [hx] at h
          cases hr : init_inputs gio rest with
          | error e =>
              rw [hr] at h
              exact absurd h (by simp [bind, Except.bind])
          | ok r =>
              rw [hr] at h
              simp only [bind, Except.bind, pure, Except.pure, Except.ok.injEq] at h
              subst h
              simp [ih r hr]

theorem rewrite_identity_inputs_length (st : BuilderState) :
    ∀ (xs ys : List Argument),
      rewrite_identity_inputs st xs = Except.ok ys → ys.length = xs.length := by
  intro xs
  induction xs with
  | nil =>
      intro ys h
      cases h
      rfl
  | cons x rest ih =>
      intro ys h
      rw [rewrite_identity_inputs] at h
      cases hx : rewrite_identity_input st x with
      | error e => rw [hx] at h; exact absurd h (by simp [bind, Except.bind])
      | ok a =>
          rw [hx] at h
          cases hr : rewrite_identity_inputs st rest with
          | error e =>
              rw [hr] at h
              exact absurd h (by simp [bind, Except.bind])
          | ok r =>
              rw [hr] at h
              simp only [bind, Except.bind, pure, Except.pure, Except.ok.injEq] at h
              subst h
              simp [ih r hr]

theorem lift_constants_loop_length (st : BuilderState) :
    ∀ (xs : List Argument) (st2 : BuilderState) (ys : List Argument),
      lift_constants_loop st xs = Except.ok (st2, ys) → ys.length = xs.length := by
  intro xs
  induction xs generalizing st with
  | nil =>
      intro st2 ys h
      cases h
      rfl
  | cons x rest ih =>
      intro st2 ys h
      rw [lift_constants_loop] at h
      cases hx : lift_constant_input st x with
      | error e => rw [hx] at h; exact absurd h (by simp [bind, Except.bind])
      | ok p =>
          obtain ⟨st1, a⟩ := p
          rw [hx] at h
          simp only [bind, Except.bind] at h
          cases hr : lift_constants_loop st1 rest with
          | error e =>
              rw [hr] at h
              exact absurd h (by simp)
          | ok q =>
              obtain ⟨stq, r⟩ := q
              rw [hr] at h
              simp only [pure, Except.pure, Except.ok.injEq, Prod.mk.injEq] at h
              obtain ⟨h1, h2⟩ := h
              subst h2
              simp [ih st1 stq r hr]

/-! ## C9 -/

/-- Classifier for registry entries: the looked-up name is either unmapped or
a graph-input entry. -/
def is_in_or_none : Option IoEntry → Bool
  | none => true
  | some (IoEntry.In _) => true
  | some (IoEntry.Out _) => false
  | some (IoEntry.Node _) => false

theorem rename_outputs_loop_discard (nm : String) :
    ∀ (outs : List Argument) (gio : OnnxGraphIo) (k : Nat),
      (∀ out ∈ outs, is_in_or_none (alookup gio.old_io_names out.name) = true) →
      rename_outputs_loop gio nm k outs =
        (gio, (outs.enumFrom k).map (fun p => { p.2 with name := nm ++ "_out" ++ Nat.repr p.1 })) := by
  intro outs
  induction outs with
  | nil => intro gio k _; rfl
  | cons o rest ih =>
      intro gio k hall
      have ho := hall o (List.mem_cons_self _ _)
      have hrest : ∀ out ∈ rest, is_in_or_none (alookup gio.old_io_names out.name) = true :=
        fun out hm => hall out (List.mem_cons_of_mem _ hm)
      have hupd : OnnxGraphIo.update_name gio o (nm ++ "_out" ++ Nat.repr k) =
          Except.error GraphIoError.InvalidGraphError := by
        rw [OnnxGraphIo.update_name]
        cases hl : alookup gio.old_io_names o.name with
        | none => rfl
        | some e =>
            cases e with
            | In i => rfl
            | Out i => rw [hl] at ho; exact absurd ho (by simp [is_in_or_none])
            | Node i => rw [hl] at ho; exact absurd ho (by simp [is_in_or_none])
      rw [rename_outputs_loop, hupd, ih gio (k + 1) hrest]
      rfl

/-- C9: for a node that is neither Constant nor Identity, the output-renaming
half of `rename_io` discards the result of the registry `update_name` call:
when every output's old name is unmapped or maps to a graph-input entry, no
error surfaces, no diagnostic runs, the registry is left untouched, and every
output is still renamed locally to the node name followed by its 1-based
`_out` position. -/
theorem c9_update_name_result_discarded (gio : OnnxGraphIo) (node : Node)
    (h1 : node.node_type ≠ NodeType.Constant)
    (h2 : node.node_type ≠ NodeType.Identity)
    (h3 : ∀ out ∈ node.outputs, is_in_or_none (alookup gio.old_io_names out.name) = true) :
    rename_io_outputs gio node =
      Except.ok (gio,
        { node with outputs := (node.outputs.enumFrom 1).map (fun p => { p.2 with name := node.name ++ "_out" ++ Nat.repr p.1 }) }) := by
  rw [rename_io_outputs, if_neg (by simp [h1, h2]),
    rename_outputs_loop_discard node.name node.outputs gio 1 h3]

/-- A registry for the C9 witness: one graph input registered under `x`. -/
def gio_c9 : OnnxGraphIo :=
  { inputs := [Argument.new "input1"], outputs := [], initializers := [],
    node_out := [], old_io_names := [("x", IoEntry.In 0)] }

/-- A node for the C9 witness: a Relu whose outputs still carry the old names
`x` (a graph-input entry) and `z` (unmapped). -/
def node_c9 : Node :=
  { node_type := NodeType.Relu, name := "relu1", inputs := [],
    outputs := [Argument.new "x", Argument.new "z"], attrs := [] }

theorem c9_update_name_result_discarded_witness :
    node_c9.node_type ≠ NodeType.Constant ∧
    node_c9.node_type ≠ NodeType.Identity ∧
    (∀ out ∈ node_c9.outputs, is_in_or_none (alookup gio_c9.old_io_names out.name) = true) ∧
    rename_io_outputs gio_c9 node_c9 =
      Except.ok (gio_c9,
        { node_c9 with outputs := (node_c9.outputs.enumFrom 1).map (fun p => { p.2 with name := node_c9.name ++ "_out" ++ Nat.repr p.1 }) }) :=
  ⟨by decide, by decide, by decide,
    c9_update_name_result_discarded gio_c9 node_c9 (by decide) (by decide) (by decide)⟩

/-! ## C10 -/

theorem convert_node_proto_shape (p : NodeProto) (gio : OnnxGraphIo) (n : Node)
    (h : convert_node_proto p gio = Except.ok n) :
    n.node_type = p.op_type ∧ n.inputs.length = p.input.length := by
  rw [convert_node_proto] at h
  cases hi : init_inputs gio p.input with
  | error e => rw [hi] at h; exact absurd h (by simp [bind, Except.bind])
  | ok args =>
      rw [hi] at h
      simp only [bind, Except.bind, Except.ok.injEq] at h
      subst h
      exact ⟨rfl, init_inputs_length gio p.input args hi⟩

theorem handle_identity_shape (st : BuilderState) (node : Node) (i : Nat)
    (st2 : BuilderState) (n2 : Node)
    (h : handle_identity st node i = Except.ok (st2, n2)) :
    n2.node_type = node.node_type ∧ n2.inputs.length = node.inputs.length := by
  rw [handle_identity] at h
  split at h
  · split at h
    · cases h
    · split at h
      · split at h
        · cases h
        · cases h
          exact ⟨rfl, rfl⟩
      · cases hr : rewrite_identity_inputs st node.inputs with
        | error e => rw [hr] at h; exact absurd h (by simp [bind, Except.bind])
        | ok inputs2 =>
            rw [hr] at h
            simp only [bind, Except.bind, Except.ok.injEq, Prod.mk.injEq] at h
            obtain ⟨h1, h2⟩ := h
            subst h2
            exact ⟨rfl, rewrite_identity_inputs_length st node.inputs inputs2 hr⟩
  · cases hr : rewrite_identity_inputs st node.inputs with
    | error e => rw [hr] at h; exact absurd h (by simp [bind, Except.bind])
    | ok inputs2 =>
        rw [hr] at h
        simp only [bind, Except.bind, Except.ok.injEq, Prod.mk.injEq] at h
        obtain ⟨h1, h2⟩ := h
        subst h2
        exact ⟨rfl, rewrite_identity_inputs_length st node.inputs inputs2 hr⟩

theorem check_constants_shape (st : BuilderState) (node : Node) (i : Nat) (gio : OnnxGraphIo)
    (st2 : BuilderState) (n2 : Node)
    (h : check_constants st node i gio = Except.ok (st2, n2)) :
    n2.node_type = node.node_type ∧ n2.inputs.length = node.inputs.length := by
  rw [check_constants] at h
  split at h
  · split at h
    · cases h
    · cases h
      exact ⟨rfl, rfl⟩
  · split at h
    · split at h
      · cases h
      · split at h
        · split at h
          · cases h
          · cases h
            exact ⟨rfl, rfl⟩
        · cases h
          exact ⟨rfl, rfl⟩
    · split at h
      · split at h
        · cases h
          rename_i hins
          exact ⟨rfl, by rw [hins]⟩
        · rename_i first rest hins
          cases hloop : lift_constants_loop st rest with
          | error e => rw [hloop] at h; exact absurd h (by simp [bind, Except.bind])
          | ok q =>
              obtain ⟨stq, rest2⟩ := q
              rw [hloop] at h
              simp only [bind, Except.bind, Except.ok.injEq, Prod.mk.injEq] at h
              obtain ⟨h1, h2⟩ := h
              subst h2
              refine ⟨rfl, ?_⟩
              simp [hins, lift_constants_loop_length st rest stq rest2 hloop]
      · cases h
        exact ⟨rfl, rfl⟩

theorem pre_unsqueeze_stages_shape (st : BuilderState) (gio : OnnxGraphIo) (and_idx : Nat)
    (p : NodeProto) (rest : List NodeProto) (st2 : BuilderState) (n2 : Node)
    (h : pre_unsqueeze_stages st gio and_idx p rest = Except.ok (st2, n2)) :
    n2.node_type = p.op_type ∧ n2.inputs.length = p.input.length := by
  rw [pre_unsqueeze_stages] at h
  cases hc : convert_node_proto p gio with
  | error e => rw [hc] at h; exact absurd h (by simp [bind, Except.bind])
  | ok n0 =>
      rw [hc] at h
      simp only [bind, Except.bind] at h
      obtain ⟨hty0, hlen0⟩ := convert_node_proto_shape p gio n0 hc
      cases hi : handle_identity ((handle_node_renaming st (coalesce (remap_node_type n0) rest gio)).1)
          ((handle_node_renaming st (coalesce (remap_node_type n0) rest gio)).2) and_idx with
      | error e => rw [hi] at h; exact absurd h (by simp)
      | ok q =>
          obtain ⟨st1, n1⟩ := q
          rw [hi] at h
          simp only at h
          obtain ⟨hty1, hlen1⟩ := handle_identity_shape _ _ _ _ _ hi
          obtain ⟨hty2, hlen2⟩ := check_constants_shape st1 n1 and_idx gio st2 n2 h
          constructor
          · rw [hty2, hty1]
            exact hty0
          · rw [hlen2, hlen1]
            exact hlen0

theorem handle_unsqueeze_oob (node : Node) (gio : OnnxGraphIo) (m : ModelProto)
    (hty : node.node_type = NodeType.Unsqueeze) (hlen : node.inputs.length < 2) :
    handle_unsqueeze node gio m = Except.error Panic.indexOutOfBounds := by
  rw [handle_unsqueeze, if_pos hty]
  have h1 : node.inputs.get? 1 = none := by
    rw [List.get?_eq_none]
    omega
  rw [h1]

theorem process_node_unsqueeze_oob (m : ModelProto) (st : BuilderState) (gio : OnnxGraphIo)
    (and_idx : Nat) (p : NodeProto) (rest : List NodeProto)
    (hty : p.op_type = NodeType.Unsqueeze) (hlen : p.input.length < 2) :
    ∀ res, process_node m st gio and_idx p rest ≠ Except.ok res := by
  intro res hok
  rw [process_node] at hok
  cases hpre : pre_unsqueeze_stages st gio and_idx p rest with
  | error e => rw [hpre] at hok; exact absurd hok (by simp [bind, Except.bind])
  | ok q =>
      obtain ⟨st1, n1⟩ := q
      rw [hpre] at hok
      obtain ⟨hty1, hlen1⟩ := pre_unsqueeze_stages_shape st gio and_idx p rest st1 n1 hpre
      have hu : handle_unsqueeze n1 gio m = Except.error Panic.indexOutOfBounds :=
        handle_unsqueeze_oob n1 gio m (by rw [hty1, hty]) (by rw [hlen1]; exact hlen)
      simp only [bind, Except.bind] at hok
      rw [hu] at hok
      exact absurd hok (by simp)

theorem build_loop_unsqueeze_oob (m : ModelProto) :
    ∀ (protos : List NodeProto) (st : BuilderState) (gio : OnnxGraphIo) (and_idx : Nat)
      (acc : List Node),
      (∃ p ∈ protos, p.op_type = NodeType.Unsqueeze ∧ p.input.length < 2) →
      ∀ res, build_loop m st gio and_idx acc protos ≠ Except.ok res := by
  intro protos
  induction protos with
  | nil =>
      intro st gio and_idx acc hbad res hok
      obtain ⟨p, hp, _⟩ := hbad
      exact absurd hp (List.not_mem_nil p)
  | cons q rest ih =>
      intro st gio and_idx acc hbad res hok
      rw [build_loop] at hok
      obtain ⟨p, hp, hbadp⟩ := hbad
      rcases List.mem_cons.mp hp with heq | hmem
      · subst heq
        cases hproc : process_node m st gio and_idx p rest with
        | error e => rw [hproc] at hok; exact absurd hok (by simp [bind, Except.bind])
        | ok w => exact process_node_unsqueeze_oob m st gio and_idx p rest hbadp.1 hbadp.2 w hproc
      · cases hproc : process_node m st gio and_idx q rest with
        | error e => rw [hproc] at hok; exact absurd hok (by simp [bind, Except.bind])
        | ok w =>
            obtain ⟨st1, gio1, n1⟩ := w
            rw [hproc] at hok
            simp only [bind, Except.bind] at hok
            exact ih st1 gio1 (and_idx + 1) (acc ++ [n1]) ⟨p, hmem, hbadp⟩ res hok

/-! ### The C10 claim -/

/-- C10: `handle_unsqueeze` unconditionally indexes the second input of every
Unsqueeze node, so an Unsqueeze node with fewer than two inputs (axes given as
an attribute rather than an input) panics with an out-of-bounds index; and a
model containing such a node never yields an IR graph from `build` (an
out-of-bounds panic — or another fatal abort raised by an earlier node —
always intervenes; there is no typed-error return). -/
theorem c10_unsqueeze_missing_axes_panics :
    (∀ (node : Node) (gio : OnnxGraphIo) (m : ModelProto),
        node.node_type = NodeType.Unsqueeze → node.inputs.length < 2 →
        handle_unsqueeze node gio m = Except.error Panic.indexOutOfBounds) ∧
    (∀ (m : ModelProto),
        (∃ p ∈ m.graph.node, p.op_type = NodeType.Unsqueeze ∧ p.input.length < 2) →
        ∀ (g : OnnxGraph), build m ≠ Except.ok g) := by
  constructor
  · exact fun node gio m hty hlen => handle_unsqueeze_oob node gio m hty hlen
  · intro m hbad g hok
    rw [build] at hok
    cases hloop : build_loop m BuilderState.new
        (OnnxGraphIo.new m.graph.input m.graph.output m.graph.initializer) 0 [] m.graph.node with
    | error e => rw [hloop] at hok; exact absurd hok (by simp [bind, Except.bind])
    | ok w =>
        exact build_loop_unsqueeze_oob m m.graph.node BuilderState.new _ 0 [] hbad w hloop

/-- A model whose single Unsqueeze node has only one input (axes as an
attribute, the opset-11 style). -/
def model_c10 : ModelProto :=
  ⟨⟨[⟨NodeType.Unsqueeze, "u", ["x"], ["y"], [("axes", AttributeValue.Ints [0])]⟩],
    [⟨"x", tyF1⟩], [⟨"y", tyF1⟩], []⟩⟩

theorem c10_unsqueeze_missing_axes_panics_witness :
    (∃ p ∈ model_c10.graph.node, p.op_type = NodeType.Unsqueeze ∧ p.input.length < 2) ∧
    build model_c10 = Except.error Panic.indexOutOfBounds ∧
    ∀ (g : OnnxGraph), build model_c10 ≠ Except.ok g :=
  ⟨by decide, by rfl, c10_unsqueeze_missing_axes_panics.2 model_c10 (by decide)⟩

/-! ## C8 -/

/-- A model where the initializer name `w` is also a node output name: the
first Relu produces `w`, the second consumes it. -/
def model_c8 : ModelProto :=
  ⟨⟨[⟨NodeType.Relu, "n1", [], ["w"], []⟩, ⟨NodeType.Relu, "n2", ["w"], ["z"], []⟩],
    [], [⟨"z", tyF1⟩], [⟨"w", tyF1, Data.Int64s [7]⟩]⟩⟩

/-- C8 counterexample: in `model_c8` the name `w` has an associated
initializer, yet during I/O resolution the consuming node's input slot is not
cleared and not unpassed: it resolves to the producing node's output name
`relu1_out1` with `passed = true`, because the registry maps `w` to a prior
node-output entry and `get_new_name` returns that name. -/
theorem c8_counterexample :
    (build model_c8).map (fun g => g.nodes.map (fun n => n.inputs.map (fun a => (a.name, a.passed)))) =
      Except.ok [[], [("relu1_out1", true)]] := by rfl

/-- Classifier for registry entries: the looked-up name maps to a graph-output
entry. -/
def is_out_entry : Option IoEntry → Bool
  | some (IoEntry.Out _) => true
  | _ => false

/-- C8 amended: `get_new_name` returns no name for a name that maps to a
graph-input entry and has an associated initializer, and I/O resolution then
clears that input slot and marks it unpassed; and `get_new_name` fails with
InvalidGraph exactly when the name currently maps to a graph-output registry
entry. (An initializer-backed name that the registry maps to a prior
node-output entry instead resolves to that node-output name, as the
counterexample shows.) -/
theorem c8_amended_initializer_names (gio : OnnxGraphIo) (nm : String) (i : Nat)
    (m : ModelProto) (input : Argument)
    (h1 : alookup gio.old_io_names nm = some (IoEntry.In i))
    (h2 : (alookup gio.initializers nm).isSome = true)
    (h3 : input.name = nm) :
    gio.get_new_name nm = Except.ok (gio, none) ∧
    rename_io_inputs gio m [input] = Except.ok (gio, [{ input with name := "", passed := false }]) ∧
    (∀ (gio2 : OnnxGraphIo) (nm2 : String),
        (gio2.get_new_name nm2).isOk = !(is_out_entry (alookup gio2.old_io_names nm2))) := by
  have hget : gio.get_new_name nm = Except.ok (gio, none) := by
    rw [OnnxGraphIo.get_new_name, h1]
    simp [h2]
  refine ⟨hget, ?_, ?_⟩
  · rw [rename_io_inputs, h3, hget]
    simp only [bind, Except.bind, rename_io_inputs]
  · intro gio2 nm2
    rw [OnnxGraphIo.get_new_name]
    cases hl : alookup gio2.old_io_names nm2 with
    | none => simp [is_out_entry, Except.isOk, Except.toBool]
    | some e =>
        cases e with
        | In j =>
            by_cases hi : (alookup gio2.initializers nm2).isSome = true
            · simp [hi, is_out_entry, Except.isOk, Except.toBool]
            · cases hg : gio2.inputs[j]? <;>
                simp [hi, hg, is_out_entry, Except.isOk, Except.toBool]
        | Out j => simp [is_out_entry, Except.isOk, Except.toBool]
        | Node j =>
            cases hg : gio2.node_out[j]? <;>
              simp [hg, is_out_entry, Except.isOk, Except.toBool]

/-- A registry for the C8 witness: one declared graph input `x` that also
appears as an initializer. -/
def gio_c8 : OnnxGraphIo :=
  OnnxGraphIo.new [⟨"x", tyF1⟩] [] [⟨"x", tyF1, Data.Int64s [5]⟩]

theorem c8_amended_initializer_names_witness :
    alookup gio_c8.old_io_names "x" = some (IoEntry.In 0) ∧
    (alookup gio_c8.initializers "x").isSome = true ∧
    (Argument.new "x").name = "x" ∧
    (gio_c8.get_new_name "x" = Except.ok (gio_c8, none) ∧
      rename_io_inputs gio_c8 ⟨⟨[], [], [], []⟩⟩ [Argument.new "x"] =
        Except.ok (gio_c8, [{ Argument.new "x" with name := "", passed := false }]) ∧
      (∀ (gio2 : OnnxGraphIo) (nm2 : String),
          (gio2.get_new_name nm2).isOk = !(is_out_entry (alookup gio2.old_io_names nm2)))) :=
  ⟨by decide, by decide, by decide,
    c8_amended_initializer_names gio_c8 "x" 0 ⟨⟨[], [], [], []⟩⟩ (Argument.new "x")
      (by decide) (by decide) (by decide)⟩

/-! ## C5 -/

/-- A model where an InvalidGraph registry error arises on the unsqueeze
rewrite path without aborting the build: the Unsqueeze node's output name `d`
duplicates the first node's output name, so the boundary lookup fails, but
the file is topologically sorted so the diagnostic passes. -/
def model_c5 : ModelProto :=
  ⟨⟨[⟨NodeType.Relu, "n1", ["x"], ["d"], []⟩, ⟨NodeType.Unsqueeze, "u", ["x", "a"], ["d"], []⟩],
    [⟨"x", tyF1⟩], [⟨"y", tyF1⟩], []⟩⟩

/-- The builder state after the first node of `model_c5`. -/
def st_c5 : BuilderState :=
  { nodes := [], node_name_counter := [(NodeType.Relu, 1)], nodes_to_remove := [],
    constants_map := [], identity_idx := [] }

/-- The registry after the first node of `model_c5`: `d` maps to a node-output
entry. -/
def gio_c5 : OnnxGraphIo :=
  { inputs := [{ name := "input1", ty := tyF1, value := none, passed := true }],
    outputs := [{ name := "y", ty := tyF1, value := none, passed := false }],
    initializers := [],
    node_out := [{ name := "relu1_out1",
                   ty := ArgType.Tensor { elem_type := ElementType.Float32, dim := 0, shape := none },
                   value := none, passed := false }],
    old_io_names := [("d", IoEntry.Node 0), ("y", IoEntry.Out 0), ("x", IoEntry.In 0)] }

/-- The processed first node of `model_c5`. -/
def node_c5_relu : Node :=
  { node_type := NodeType.Relu, name := "relu1",
    inputs := [{ name := "input1", ty := tyF1, value := none, passed := true }],
    outputs := [{ name := "relu1_out1",
                  ty := ArgType.Tensor { elem_type := ElementType.Float32, dim := 0, shape := none },
                  value := none, passed := false }],
    attrs := [] }

/-- The second node of `model_c5` as `handle_unsqueeze` receives it. -/
def node_c5_unsq : Node :=
  { node_type := NodeType.Unsqueeze, name := "unsqueeze1",
    inputs := [{ name := "x", ty := tyF1, value := none, passed := true },
               { name := "a",
                 ty := ArgType.Tensor { elem_type := ElementType.Float32, dim := 0, shape := none },
                 value := none, passed := false }],
    outputs := [{ name := "d",
                  ty := ArgType.Tensor { elem_type := ElementType.Float32, dim := 0, shape := none },
                  value := none, passed := false }],
    attrs := [] }

/-- C5 counterexample: on `model_c5` the per-node pipeline reaches
`handle_unsqueeze` with a node whose boundary lookup returns InvalidGraph (an
error on the unsqueeze-rewrite path), the diagnostic runs and passes, the
error is swallowed (the node is returned unchanged), and the build still
completes with a successful IR graph — contradicting the claim that no
successful graph is ever produced after an InvalidGraph error on these paths. -/
theorem c5_counterexample :
    build_loop model_c5 BuilderState.new
        (OnnxGraphIo.new model_c5.graph.input model_c5.graph.output model_c5.graph.initializer)
        0 [] [⟨NodeType.Relu, "n1", ["x"], ["d"], []⟩] =
      Except.ok (st_c5, gio_c5, [node_c5_relu]) ∧
    pre_unsqueeze_stages st_c5 gio_c5 1 ⟨NodeType.Unsqueeze, "u", ["x", "a"], ["d"], []⟩ [] =
      Except.ok ({ st_c5 with node_name_counter := (NodeType.Unsqueeze, 1) :: st_c5.node_name_counter },
        node_c5_unsq) ∧
    gio_c5.get_node_output "d" = Except.error GraphIoError.InvalidGraphError ∧
    handle_unsqueeze node_c5_unsq gio_c5 model_c5 = Except.ok node_c5_unsq ∧
    (build model_c5).isOk = true := by
  refine ⟨by rfl, by rfl, by rfl, by rfl, by rfl⟩

/-- C5 amended: when a registry operation returns InvalidGraph during the
unsqueeze rewrite or during input resolution, the builder first runs the
topological-order diagnostic; it aborts only if that diagnostic finds the
fallback-converted nodes not topologically sorted — otherwise the error is
swallowed (the node input list goes on unchanged at that slot, the unsqueeze
node is left unrewritten) and the build continues, so a successful IR graph
can still be produced. -/
theorem c5_amended_diagnostic_then_continue :
    (∀ (m : ModelProto) (gio : OnnxGraphIo) (node : Node) (rhs out0 : Argument),
        node.node_type = NodeType.Unsqueeze →
        node.inputs.get? 1 = some rhs → rhs.value = none →
        node.outputs.get? 0 = some out0 →
        gio.get_node_output out0.name = Except.error GraphIoError.InvalidGraphError →
        handle_unsqueeze node gio m =
          if is_top_sorted (m.graph.node.map fallback_convert_node_proto) then Except.ok node
          else Except.error Panic.nodesNotSorted) ∧
    (∀ (m : ModelProto) (gio : OnnxGraphIo) (input : Argument) (rest : List Argument),
        gio.get_new_name input.name = Except.error GraphIoError.InvalidGraphError →
        rename_io_inputs gio m (input :: rest) =
          if is_top_sorted (m.graph.node.map fallback_convert_node_proto) then
            (do
              let (gio2, rest2) ← rename_io_inputs gio m rest
              Except.ok (gio2, input :: rest2))
          else Except.error Panic.nodesNotSorted) := by
  constructor
  · intro m gio node rhs out0 hty h1 hv h0 herr
    rw [handle_unsqueeze, if_pos hty]
    simp only [h1, hv, h0, herr]
    rw [check_validity]
    by_cases hs : is_top_sorted (m.graph.node.map fallback_convert_node_proto) = true
    · rw [if_pos hs, if_pos hs]
      rfl
    · rw [if_neg hs, if_neg hs]
      rfl
  · intro m gio input rest herr
    rw [rename_io_inputs, herr]
    rw [check_validity]
    by_cases hs : is_top_sorted (m.graph.node.map fallback_convert_node_proto) = true
    · rw [if_pos hs, if_pos hs]
      rfl
    · rw [if_neg hs, if_neg hs]
      rfl

theorem c5_amended_diagnostic_then_continue_witness :
    (node_c5_unsq.node_type = NodeType.Unsqueeze ∧
      node_c5_unsq.inputs.get? 1 = some (node_c5_unsq.inputs.getD 1 (Argument.new "")) ∧
      (node_c5_unsq.inputs.getD 1 (Argument.new "")).value = none ∧
      node_c5_unsq.outputs.get? 0 = some (node_c5_unsq.outputs.getD 0 (Argument.new "")) ∧
      gio_c5.get_node_output (node_c5_unsq.outputs.getD 0 (Argument.new "")).name =
        Except.error GraphIoError.InvalidGraphError ∧
      handle_unsqueeze node_c5_unsq gio_c5 model_c5 =
        if is_top_sorted (model_c5.graph.node.map fallback_convert_node_proto) then
          Except.ok node_c5_unsq
        else Except.error Panic.nodesNotSorted) ∧
    (gio_c5.get_new_name "y" = Except.error GraphIoError.InvalidGraphError ∧
      rename_io_inputs gio_c5 model_c5 [Argument.new "y"] =
        if is_top_sorted (model_c5.graph.node.map fallback_convert_node_proto) then
          (do
            let (gio2, rest2) ← rename_io_inputs gio_c5 model_c5 []
            Except.ok (gio2, Argument.new "y" :: rest2))
        else Except.error Panic.nodesNotSorted) :=
  ⟨⟨by decide, by decide, by decide, by decide, by decide,
      c5_amended_diagnostic_then_continue.1 model_c5 gio_c5 node_c5_unsq
        (node_c5_unsq.inputs.getD 1 (Argument.new "")) (node_c5_unsq.outputs.getD 0 (Argument.new ""))
        (by decide) (by decide) (by decide) (by decide) (by decide)⟩,
    ⟨by decide,
      c5_amended_diagnostic_then_continue.2 model_c5 gio_c5 (Argument.new "y") [] (by decide)⟩⟩

/-! ## C6 -/

/-- A model with one Unsqueeze node whose axes input `a` has no literal value
and whose output name `y` is the declared graph output with concrete shape
`[1,3,224,224]`. -/
def model_c6 : ModelProto :=
  ⟨⟨[⟨NodeType.Unsqueeze, "u", ["x", "a"], ["y"], []⟩],
    [⟨"x", ArgType.Tensor { elem_type := ElementType.Float32, dim := 3, shape := some [3, 224, 224] }⟩],
    [⟨"y", ArgType.Tensor { elem_type := ElementType.Float32, dim := 4, shape := some [1, 3, 224, 224] }⟩],
    []⟩⟩

/-- C6 counterexample: on `model_c6` the final graph does contain the Reshape
node with output shape `[1,3,224,224]` and a literal rank-length Int64 list as
its second input, not marked passed — but that input's name is the empty
string, not `"unsqueeze1_generated_const"`: I/O resolution cleared the
synthesized name because it is not registered. -/
theorem c6_counterexample :
    (build model_c6).map (fun g => g.nodes.map (fun n =>
        (n.node_type, n.name, n.inputs.map (fun a => (a.name, a.ty, a.value, a.passed)),
         n.outputs.map (fun a => (a.name, a.ty))))) =
      Except.ok
        [(NodeType.Reshape, "unsqueeze1",
          [("input1",
            ArgType.Tensor { elem_type := ElementType.Float32, dim := 3, shape := some [3, 224, 224] },
            none, true),
           ("",
            ArgType.Tensor { elem_type := ElementType.Int64, dim := 1, shape := some [4] },
            some (Data.Int64s [1, 3, 224, 224]), false)],
          [("unsqueeze1_out1",
            ArgType.Tensor { elem_type := ElementType.Float32, dim := 4, shape := some [1, 3, 224, 224] })])] := by
  rfl

/-- C6 amended: an Unsqueeze node whose axes input has no literal value and
whose output name resolves to a graph boundary with concrete shape `s` is
rewritten in place to a Reshape node whose first output becomes the boundary
Argument (carrying shape `s`) and whose second input becomes a literal Int64
list of length equal to the rank of `s`, synthesized under the name
`"{node-name}_generated_const"` and not marked passed; I/O resolution then
clears that synthesized (unregistered) name to the empty string, which is how
the node appears in the final graph. -/
theorem c6_amended_unsqueeze_rewrite :
    (∀ (node : Node) (gio : OnnxGraphIo) (m : ModelProto) (rhs out0 barg : Argument)
        (tt bt : TensorType) (shp : List Nat),
        node.node_type = NodeType.Unsqueeze →
        node.inputs.get? 1 = some rhs → rhs.value = none →
        node.outputs.get? 0 = some out0 → out0.ty = ArgType.Tensor tt →
        gio.get_node_output out0.name = Except.ok (some barg) →
        barg.ty = ArgType.Tensor bt → bt.shape = some shp →
        handle_unsqueeze node gio m = Except.ok
          { node with
            node_type := NodeType.Reshape
            inputs := modifyAt node.inputs 1 (fun _ =>
              { name := node.name ++ "_generated_const"
                ty := ArgType.Tensor { elem_type := ElementType.Int64, dim := 1, shape := some [shp.length] }
                value := some (Data.Int64s (shp.map (fun x => Int.ofNat x)))
                passed := false })
            outputs := modifyAt node.outputs 0 (fun _ => barg) }) ∧
    (∀ (gio : OnnxGraphIo) (m : ModelProto) (input : Argument) (rest : List Argument),
        alookup gio.old_io_names input.name = none →
        rename_io_inputs gio m (input :: rest) =
          (do
            let (gio2, rest2) ← rename_io_inputs gio m rest
            Except.ok (gio2, { input with name := "", passed := false } :: rest2))) := by
  constructor
  · intro node gio m rhs out0 barg tt bt shp hty h1 hv h0 hout hotty hbty hbshp
    rw [handle_unsqueeze, if_pos hty]
    simp only [h1, hv, h0, hotty]
    unfold remap_unsqueeze_to_reshape
    simp only [h0, hout, hbty, hbshp, if_true, List.length_map]
  · intro gio m input rest hl
    have hget : gio.get_new_name input.name = Except.ok (gio, none) := by
      rw [OnnxGraphIo.get_new_name, hl]
    rw [rename_io_inputs, hget]

/-- The Unsqueeze node of `model_c6` as `handle_unsqueeze` receives it, and
the boundary output Argument it is rewritten with. -/
def node_c6_unsq : Node :=
  { node_type := NodeType.Unsqueeze, name := "unsqueeze1",
    inputs := [{ name := "x",
                 ty := ArgType.Tensor { elem_type := ElementType.Float32, dim := 3, shape := some [3, 224, 224] },
                 value := none, passed := true },
               { name := "a",
                 ty := ArgType.Tensor { elem_type := ElementType.Float32, dim := 0, shape := none },
                 value := none, passed := false }],
    outputs := [{ name := "y",
                  ty := ArgType.Tensor { elem_type := ElementType.Float32, dim := 0, shape := none },
                  value := none, passed := false }],
    attrs := [] }

/-- The registry of `model_c6` at the time the Unsqueeze node is processed. -/
def gio_c6 : OnnxGraphIo :=
  OnnxGraphIo.new model_c6.graph.input model_c6.graph.output model_c6.graph.initializer

/-- The boundary output Argument of `model_c6`. -/
def barg_c6 : Argument :=
  { name := "y"
    ty := ArgType.Tensor { elem_type := ElementType.Float32, dim := 4, shape := some [1, 3, 224, 224] }
    value := none
    passed := false }

theorem c6_amended_unsqueeze_rewrite_witness :
    (node_c6_unsq.node_type = NodeType.Unsqueeze ∧
      gio_c6.get_node_output "y" = Except.ok (some barg_c6) ∧
      handle_unsqueeze node_c6_unsq gio_c6 model_c6 = Except.ok
        { node_c6_unsq with
          node_type := NodeType.Reshape
          inputs := modifyAt node_c6_unsq.inputs 1 (fun _ =>
            { name := node_c6_unsq.name ++ "_generated_const"
              ty := ArgType.Tensor { elem_type := ElementType.Int64, dim := 1, shape := some [4] }
              value := some (Data.Int64s [1, 3, 224, 224])
              passed := false })
          outputs := modifyAt node_c6_unsq.outputs 0 (fun _ => barg_c6) }) ∧
    (alookup gio_c6.old_io_names "unsqueeze1_generated_const" = none ∧
      rename_io_inputs gio_c6 model_c6 [Argument.new "unsqueeze1_generated_const"] =
        (do
          let (gio2, rest2) ← rename_io_inputs gio_c6 model_c6 []
          Except.ok (gio2, { Argument.new "unsqueeze1_generated_const" with name := "", passed := false } :: rest2))) :=
  ⟨⟨by decide, by decide,
      c6_amended_unsqueeze_rewrite.1 node_c6_unsq gio_c6 model_c6
        (node_c6_unsq.inputs.getD 1 (Argument.new ""))
        (node_c6_unsq.outputs.getD 0 (Argument.new ""))
        barg_c6
        { elem_type := ElementType.Float32, dim := 0, shape := none }
        { elem_type := ElementType.Float32, dim := 4, shape := some [1, 3, 224, 224] }
        [1, 3, 224, 224]
        (by decide) (by decide) (by decide) (by decide) (by decide) (by decide) (by decide) (by decide)⟩,
    ⟨by decide,
      c6_amended_unsqueeze_rewrite.2 gio_c6 model_c6 (Argument.new "unsqueeze1_generated_const") []
        (by decide)⟩⟩

/-! ## C1 -/

/-- The registry invariant over graph-input slots: the input vector keeps the
file's input count; the initializer constants map is the one built at
construction; every `In` registry entry is keyed by the corresponding declared
input's original name; and an input slot whose original name has an associated
initializer keeps its positional name and is never marked passed. -/
def input_slots_inv (m : ModelProto) (gio : OnnxGraphIo) : Prop :=
  gio.inputs.length = m.graph.input.length ∧
  gio.initializers = initializer_map m.graph.initializer ∧
  (∀ nm j, alookup gio.old_io_names nm = some (IoEntry.In j) →
      ∃ vi, m.graph.input.get? j = some vi ∧ vi.name = nm) ∧
  (∀ j vi, m.graph.input.get? j = some vi →
      (alookup (initializer_map m.graph.initializer) vi.name).isSome = true →
      ∃ a, gio.inputs.get? j = some a ∧ a.passed = false ∧
        a.name = "input" ++ Nat.repr (j + 1))

theorem input_slots_inv_of_fields (m : ModelProto) (gio gio2 : OnnxGraphIo)
    (h : input_slots_inv m gio)
    (h1 : gio2.inputs = gio.inputs)
    (h2 : gio2.initializers = gio.initializers)
    (h3 : gio2.old_io_names = gio.old_io_names) :
    input_slots_inv m gio2 := by
  obtain ⟨ha, hb, hc, hd⟩ := h
  exact ⟨by rw [h1]; exact ha, by rw [h2]; exact hb,
    fun nm j hl => hc nm j (by rw [← h3]; exact hl),
    fun j vi hj hi => by rw [h1]; exact hd j vi hj hi⟩

theorem input_slots_inv_cons_node (m : ModelProto) (gio : OnnxGraphIo)
    (h : input_slots_inv m gio) (k : String) (idx : Nat) (outs2 no2 : List Argument) :
    input_slots_inv m
      { inputs := gio.inputs, outputs := outs2, initializers := gio.initializers,
        node_out := no2, old_io_names := (k, IoEntry.Node idx) :: gio.old_io_names } := by
  obtain ⟨ha, hb, hc, hd⟩ := h
  refine ⟨ha, hb, ?_, hd⟩
  intro nm j hl
  rw [alookup_cons] at hl
  by_cases hk : k = nm
  · rw [if_pos hk] at hl
    cases hl
  · rw [if_neg hk] at hl
    exact hc nm j hl

theorem input_slots_inv_modify_preserving (m : ModelProto) (gio : OnnxGraphIo)
    (h : input_slots_inv m gio) (i : Nat) (f : Argument → Argument)
    (hf : ∀ a, (f a).passed = a.passed ∧ (f a).name = a.name) :
    input_slots_inv m { gio with inputs := modifyAt gio.inputs i f } := by
  obtain ⟨ha, hb, hc, hd⟩ := h
  refine ⟨by rw [length_modifyAt]; exact ha, hb, hc, ?_⟩
  intro j vi hj hi
  obtain ⟨a, hga, hpa, hna⟩ := hd j vi hj hi
  rw [get?_modifyAt]
  by_cases hij : i = j
  · subst hij
    refine ⟨f a, by rw [if_pos rfl, hga]; rfl, ?_, ?_⟩
    · rw [(hf a).1]; exact hpa
    · rw [(hf a).2]; exact hna
  · rw [if_neg hij]
    exact ⟨a, hga, hpa, hna⟩

theorem input_slots_inv_insert (m : ModelProto) (gio : OnnxGraphIo)
    (h : input_slots_inv m gio) (arg : Argument) (nn : String) :
    input_slots_inv m (gio.insert arg nn) := by
  rw [OnnxGraphIo.insert]
  split
  · split
    · split
      · exact input_slots_inv_of_fields m gio _ h rfl rfl rfl
      · exact input_slots_inv_cons_node m gio h _ _ _ _
    · exact input_slots_inv_cons_node m gio h _ _ _ _
  · exact input_slots_inv_cons_node m gio h _ _ _ _

theorem input_slots_inv_update_name (m : ModelProto) (gio gio2 : OnnxGraphIo)
    (h : input_slots_inv m gio) (arg : Argument) (nn : String)
    (hu : gio.update_name arg nn = Except.ok gio2) :
    input_slots_inv m gio2 := by
  rw [OnnxGraphIo.update_name] at hu
  cases hl : alookup gio.old_io_names arg.name with
  | none => rw [hl] at hu; cases hu
  | some e =>
      cases e with
      | In i => rw [hl] at hu; cases hu
      | Out i =>
          rw [hl] at hu
          cases hu
          exact input_slots_inv_of_fields m gio _ h rfl rfl rfl
      | Node i =>
          rw [hl] at hu
          cases hu
          exact input_slots_inv_of_fields m gio _ h rfl rfl rfl

theorem input_slots_inv_update_tensor_output (m : ModelProto) :
    ∀ (outs : List Argument) (gio : OnnxGraphIo), input_slots_inv m gio →
      input_slots_inv m
        (outs.foldl
          (fun gio node_output =>
            match alookup gio.old_io_names node_output.name with
            | some (IoEntry.In i) =>
                { gio with inputs := modifyAt gio.inputs i (fun a => a.copy_value node_output) }
            | some (IoEntry.Out i) =>
                { gio with
                  outputs := modifyAt gio.outputs i
                    (fun a => { a.copy_value node_output with passed := true }) }
            | some (IoEntry.Node _) => gio
            | none =>
                { gio with
                  old_io_names :=
                    (node_output.name, IoEntry.Node gio.node_out.length) :: gio.old_io_names
                  node_out := gio.node_out ++ [node_output] })
          gio) := by
  intro outs
  induction outs with
  | nil => intro gio h; exact h
  | cons o rest ih =>
      intro gio h
      rw [List.foldl_cons]
      apply ih
      cases hl : alookup gio.old_io_names o.name with
      | none =>
          simp only [hl]
          exact input_slots_inv_cons_node m gio h _ _ _ _
      | some e =>
          cases e with
          | In i =>
              simp only [hl]
              exact input_slots_inv_modify_preserving m gio h i _
                (fun a => ⟨rfl, rfl⟩)
          | Out i =>
              simp only [hl]
              exact input_slots_inv_of_fields m gio _ h rfl rfl rfl
          | Node i =>
              simp only [hl]
              exact h

theorem input_slots_inv_update_tensor_output_apply (m : ModelProto) (gio : OnnxGraphIo)
    (node : Node) (h : input_slots_inv m gio) :
    input_slots_inv m (gio.update_tensor_output node) :=
  input_slots_inv_update_tensor_output m node.outputs gio h

theorem input_slots_inv_get_new_name (m : ModelProto) (gio gio2 : OnnxGraphIo) (nm : String)
    (s : Option String) (h : input_slots_inv m gio)
    (hg : gio.get_new_name nm = Except.ok (gio2, s)) :
    input_slots_inv m gio2 := by
  rw [OnnxGraphIo.get_new_name] at hg
  split at hg
  · rename_i i heq
    split at hg
    · cases hg
      exact h
    · rename_i hinit
      split at hg
      · rename_i arg harg
        cases hg
        obtain ⟨ha, hb, hc, hd⟩ := h
        refine ⟨by rw [length_modifyAt]; exact ha, hb, hc, ?_⟩
        intro j vi hj hi
        by_cases hij : i = j
        · subst hij
          obtain ⟨vi2, hvi2, hnm2⟩ := hc nm i heq
          rw [hj] at hvi2
          cases hvi2
          rw [hnm2] at hi
          rw [hb] at hinit
          exact absurd hi hinit
        · rw [get?_modifyAt, if_neg hij]
          exact hd j vi hj hi
      · cases hg
        exact h
  · cases hg
  · split at hg
    · cases hg
      exact h
    · cases hg
      exact h
  · cases hg
    exact h

theorem input_slots_inv_rename_io_inputs (m : ModelProto) :
    ∀ (ins : List Argument) (gio gio2 : OnnxGraphIo) (outs : List Argument),
      input_slots_inv m gio →
      rename_io_inputs gio m ins = Except.ok (gio2, outs) →
      input_slots_inv m gio2 := by
  intro ins
  induction ins with
  | nil =>
      intro gio gio2 outs h hr
      rw [rename_io_inputs] at hr
      cases hr
      exact h
  | cons input rest ih =>
      intro gio gio2 outs h hr
      rw [rename_io_inputs] at hr
      split at hr
      · rename_i gio1 input_name heq
        cases hrec : rename_io_inputs gio1 m rest with
        | error e => rw [hrec] at hr; exact absurd hr (by simp [bind, Except.bind])
        | ok q =>
            obtain ⟨g2, r2⟩ := q
            rw [hrec] at hr
            simp only [bind, Except.bind, Except.ok.injEq, Prod.mk.injEq] at hr
            obtain ⟨h1, h2⟩ := hr
            subst h1
            exact ih gio1 _ r2 (input_slots_inv_get_new_name m gio gio1 input.name _ h heq) hrec
      · rename_i gio1 heq
        cases hrec : rename_io_inputs gio1 m rest with
        | error e => rw [hrec] at hr; exact absurd hr (by simp [bind, Except.bind])
        | ok q =>
            obtain ⟨g2, r2⟩ := q
            rw [hrec] at hr
            simp only [bind, Except.bind, Except.ok.injEq, Prod.mk.injEq] at hr
            obtain ⟨h1, h2⟩ := hr
            subst h1
            exact ih gio1 _ r2 (input_slots_inv_get_new_name m gio gio1 input.name _ h heq) hrec
      · cases hcv : check_validity m with
        | error e => rw [hcv] at hr; exact absurd hr (by simp [bind, Except.bind])
        | ok u =>
            rw [hcv] at hr
            simp only [bind, Except.bind] at hr
            cases hrec : rename_io_inputs gio m rest with
            | error e => rw [hrec] at hr; exact absurd hr (by simp)
            | ok q =>
                obtain ⟨g2, r2⟩ := q
                rw [hrec] at hr
                simp only [Except.ok.injEq, Prod.mk.injEq] at hr
                obtain ⟨h1, h2⟩ := hr
                subst h1
                exact ih gio _ r2 h hrec

theorem input_slots_inv_rename_outputs_loop (m : ModelProto) (nm : String) :
    ∀ (outs : List Argument) (gio : OnnxGraphIo) (k : Nat),
      input_slots_inv m gio →
      input_slots_inv m (rename_outputs_loop gio nm k outs).1 := by
  intro outs
  induction outs with
  | nil => intro gio k h; exact h
  | cons o rest ih =>
      intro gio k h
      rw [rename_outputs_loop]
      have hstep : input_slots_inv m
          (match gio.update_name o (nm ++ "_out" ++ Nat.repr k) with
            | Except.ok g => g
            | Except.error _ => gio) := by
        cases hu : gio.update_name o (nm ++ "_out" ++ Nat.repr k) with
        | ok g => exact input_slots_inv_update_name m gio g h o _ hu
        | error e => exact h
      cases hlr : rename_outputs_loop
          (match gio.update_name o (nm ++ "_out" ++ Nat.repr k) with
            | Except.ok g => g
            | Except.error _ => gio) nm (k + 1) rest with
      | mk g2 r2 =>
          have := ih _ (k + 1) hstep
          rw [hlr] at this
          simp only [hlr]
          exact this

theorem input_slots_inv_rename_io_outputs (m : ModelProto) (gio gio2 : OnnxGraphIo)
    (node node2 : Node) (h : input_slots_inv m gio)
    (hr : rename_io_outputs gio node = Except.ok (gio2, node2)) :
    input_slots_inv m gio2 := by
  rw [rename_io_outputs] at hr
  split at hr
  · split at hr
    · cases hr
    · cases hr
      exact input_slots_inv_insert m gio h _ _
  · cases hlr : rename_outputs_loop gio node.name 1 node.outputs with
    | mk g2 outs2 =>
        rw [hlr] at hr
        simp only [Except.ok.injEq, Prod.mk.injEq] at hr
        obtain ⟨h1, h2⟩ := hr
        subst h1
        have := input_slots_inv_rename_outputs_loop m node.name node.outputs gio 1 h
        rw [hlr] at this
        exact this

theorem input_slots_inv_rename_io (m : ModelProto) (gio gio2 : OnnxGraphIo)
    (node node2 : Node) (h : input_slots_inv m gio)
    (hr : rename_io node gio m = Except.ok (node2, gio2)) :
    input_slots_inv m gio2 := by
  rw [rename_io] at hr
  cases hri : rename_io_inputs gio m node.inputs with
  | error e => rw [hri] at hr; exact absurd hr (by simp [bind, Except.bind])
  | ok q =>
      obtain ⟨gio1, ins1⟩ := q
      rw [hri] at hr
      simp only [bind, Except.bind] at hr
      have h1 := input_slots_inv_rename_io_inputs m node.inputs gio gio1 ins1 h hri
      cases hro : rename_io_outputs gio1 { node with inputs := ins1 } with
      | error e => rw [hro] at hr; exact absurd hr (by simp)
      | ok q2 =>
          obtain ⟨g2, n2⟩ := q2
          rw [hro] at hr
          simp only [Except.ok.injEq, Prod.mk.injEq] at hr
          obtain ⟨ha2, hb2⟩ := hr
          subst hb2
          exact input_slots_inv_rename_io_outputs m gio1 g2 _ n2 h1 hro

theorem input_slots_inv_process_node (m : ModelProto) (st st2 : BuilderState)
    (gio gio2 : OnnxGraphIo) (and_idx : Nat) (p : NodeProto) (rest : List NodeProto) (n2 : Node)
    (h : input_slots_inv m gio)
    (hp : process_node m st gio and_idx p rest = Except.ok (st2, gio2, n2)) :
    input_slots_inv m gio2 := by
  rw [process_node] at hp
  cases hpre : pre_unsqueeze_stages st gio and_idx p rest with
  | error e => rw [hpre] at hp; exact absurd hp (by simp [bind, Except.bind])
  | ok q =>
      obtain ⟨st1, nd1⟩ := q
      rw [hpre] at hp
      simp only [bind, Except.bind] at hp
      cases hu : handle_unsqueeze nd1 gio m with
      | error e => rw [hu] at hp; exact absurd hp (by simp)
      | ok nd2 =>
          rw [hu] at hp
          simp only [dim_inference] at hp
          cases hr : rename_io nd2 (gio.update_tensor_output nd2) m with
          | error e => rw [hr] at hp; exact absurd hp (by simp)
          | ok q2 =>
              obtain ⟨n3, g3⟩ := q2
              rw [hr] at hp
              simp only [Except.ok.injEq, Prod.mk.injEq] at hp
              obtain ⟨hp1, hp2, hp3⟩ := hp
              subst hp2
              exact input_slots_inv_rename_io m (gio.update_tensor_output nd2) _ nd2 n3
                (input_slots_inv_update_tensor_output_apply m gio nd2 h) hr

theorem input_slots_inv_build_loop (m : ModelProto) :
    ∀ (protos : List NodeProto) (st : BuilderState) (gio : OnnxGraphIo) (and_idx : Nat)
      (acc : List Node) (st2 : BuilderState) (gio2 : OnnxGraphIo) (nodes : List Node),
      input_slots_inv m gio →
      build_loop m st gio and_idx acc protos = Except.ok (st2, gio2, nodes) →
      input_slots_inv m gio2 := by
  intro protos
  induction protos with
  | nil =>
      intro st gio and_idx acc st2 gio2 nodes h hb
      rw [build_loop] at hb
      cases hb
      exact h
  | cons p rest ih =>
      intro st gio and_idx acc st2 gio2 nodes h hb
      rw [build_loop] at hb
      cases hproc : process_node m st gio and_idx p rest with
      | error e => rw [hproc] at hb; exact absurd hb (by simp [bind, Except.bind])
      | ok q =>
          obtain ⟨st1, gio1, n1⟩ := q
          rw [hproc] at hb
          simp only [bind, Except.bind] at hb
          exact ih st1 gio1 (and_idx + 1) (acc ++ [n1]) st2 gio2 nodes
            (input_slots_inv_process_node m st st1 gio gio1 and_idx p rest n1 h hproc) hb

theorem input_slots_inv_new (m : ModelProto) :
    input_slots_inv m (OnnxGraphIo.new m.graph.input m.graph.output m.graph.initializer) := by
  refine ⟨?_, rfl, ?_, ?_⟩
  · simp [OnnxGraphIo.new, List.enum_length]
  · intro nm j hl
    simp only [OnnxGraphIo.new] at hl
    rw [alookup_append] at hl
    cases hout : alookup
        ((m.graph.output.enum.map (fun p => (p.2.name, IoEntry.Out p.1))).reverse) nm with
    | some v =>
        rw [hout] at hl
        simp only [Option.some.injEq] at hl
        subst hl
        have hmem := mem_of_alookup_eq_some hout
        rw [List.mem_reverse] at hmem
        obtain ⟨p, hp, heq⟩ := List.mem_map.mp hmem
        simp only [Prod.mk.injEq] at heq
        cases heq.2
    | none =>
        rw [hout] at hl
        have hmem := mem_of_alookup_eq_some hl
        rw [List.mem_reverse] at hmem
        obtain ⟨p, hp, heq⟩ := List.mem_map.mp hmem
        simp only [Prod.mk.injEq, IoEntry.In.injEq] at heq
        obtain ⟨hnm, hj⟩ := heq
        refine ⟨p.2, ?_, hnm⟩
        rw [← hj]
        exact List.mem_enum_iff_get?.mp hp
  · intro j vi hj hi
    simp only [OnnxGraphIo.new, List.get?_map, List.get?_enum, hj, Option.map_some]
    refine ⟨_, rfl, ?_, ?_⟩
    · cases halo : alookup (initializer_map m.graph.initializer) vi.name <;>
        simp [halo, Argument.try_from_value_info, Argument.copy_value]
    · cases halo : alookup (initializer_map m.graph.initializer) vi.name <;>
        simp [halo, Argument.try_from_value_info, Argument.copy_value]

/-- C1 counterexample: in `model_c1` the graph input `x` also appears as an
initializer with literal value `[5]` and is consumed by the Relu node, yet the
final pruned input list is empty — the input does not appear once with
`passed = true` as the claim states; the consuming node's input slot instead
carries the merged literal with a cleared name and `passed = false`. -/
theorem c1_counterexample :
    (build model_c1).map (fun g =>
        (g.inputs, g.nodes.map (fun n => n.inputs.map (fun a => (a.name, a.value, a.passed))))) =
      Except.ok ([], [[("", some (Data.Int64s [5]), false)]]) := by rfl

/-- C1 amended: a graph input whose name also appears as an initializer is
absent from the final pruned input list whether or not any node consumes it:
its registry slot keeps its positional name, is never marked passed (the
updated-name lookup returns no name for initializer-backed inputs without
setting `passed`), and is therefore dropped by the final prune. -/
theorem c1_amended_initializer_inputs_pruned (m : ModelProto) (g : OnnxGraph) (i : Nat)
    (vi : ValueInfoProto)
    (hok : build m = Except.ok g)
    (hvi : m.graph.input.get? i = some vi)
    (hinit : (alookup (initializer_map m.graph.initializer) vi.name).isSome = true) :
    ∃ st gio nodes,
      build_loop m BuilderState.new
          (OnnxGraphIo.new m.graph.input m.graph.output m.graph.initializer) 0 [] m.graph.node =
        Except.ok (st, gio, nodes) ∧
      g.inputs = gio.inputs.filter (fun a => a.passed) ∧
      ∃ a, gio.inputs.get? i = some a ∧ a.passed = false ∧
        a.name = "input" ++ Nat.repr (i + 1) := by
  rw [build] at hok
  cases hloop : build_loop m BuilderState.new
      (OnnxGraphIo.new m.graph.input m.graph.output m.graph.initializer) 0 [] m.graph.node with
  | error e => rw [hloop] at hok; exact absurd hok (by simp [bind, Except.bind])
  | ok w =>
      obtain ⟨st, gio, nodes⟩ := w
      rw [hloop] at hok
      simp only [bind, Except.bind, remove_unused_graph_inputs, Except.ok.injEq] at hok
      have hinv := input_slots_inv_build_loop m m.graph.node BuilderState.new _ 0 [] st gio nodes
        (input_slots_inv_new m) hloop
      obtain ⟨a, hga, hpa, hna⟩ := hinv.2.2.2 i vi hvi hinit
      refine ⟨st, gio, nodes, rfl, ?_, a, hga, hpa, hna⟩
      rw [← hok]

/-- The default rank-zero float tensor type of a fresh Argument. -/
def tyF0 : ArgType := ArgType.Tensor { elem_type := ElementType.Float32, dim := 0, shape := none }

/-- The final graph of `model_c1`. -/
def g_c1 : OnnxGraph :=
  { nodes := [{ node_type := NodeType.Relu
                name := "relu1"
                inputs := [{ name := "", ty := tyF1, value := some (Data.Int64s [5]), passed := false }]
                outputs := [{ name := "relu1_out1", ty := tyF0, value := none, passed := false }]
                attrs := [] }]
    inputs := []
    outputs := [{ name := "relu1_out1", ty := tyF0, value := none, passed := true }] }

theorem c1_amended_initializer_inputs_pruned_witness :
    build model_c1 = Except.ok g_c1 ∧
    model_c1.graph.input.get? 0 = some ⟨"x", tyF1⟩ ∧
    (alookup (initializer_map model_c1.graph.initializer) "x").isSome = true ∧
    (∃ st gio nodes,
      build_loop model_c1 BuilderState.new
          (OnnxGraphIo.new model_c1.graph.input model_c1.graph.output model_c1.graph.initializer)
          0 [] model_c1.graph.node =
        Except.ok (st, gio, nodes) ∧
      g_c1.inputs = gio.inputs.filter (fun a => a.passed) ∧
      ∃ a, gio.inputs.get? 0 = some a ∧ a.passed = false ∧
        a.name = "input" ++ Nat.repr (0 + 1)) :=
  ⟨by rfl, by rfl, by rfl,
    c1_amended_initializer_inputs_pruned model_c1 g_c1 0 ⟨"x", tyF1⟩ (by rfl) (by rfl) (by rfl)⟩

/-! ## C7 -/

/-- A model where the node-output name `w` coincides with an initializer name
and is consumed by an Identity node appearing before its producer. -/
def model_c7a : ModelProto :=
  ⟨⟨[⟨NodeType.Identity, "id", ["w"], ["yy"], []⟩, ⟨NodeType.Relu, "r2", [], ["w"], []⟩],
    [], [⟨"z", tyF1⟩], [⟨"w", tyF1, Data.Int64s [7]⟩]⟩⟩

/-- The same file as `model_c7a` except that the node-output name `w` (and its
consuming reference) is renamed to `v`; nothing else differs. -/
def model_c7b : ModelProto :=
  ⟨⟨[⟨NodeType.Identity, "id", ["v"], ["yy"], []⟩, ⟨NodeType.Relu, "r2", [], ["v"], []⟩],
    [], [⟨"z", tyF1⟩], [⟨"w", tyF1, Data.Int64s [7]⟩]⟩⟩

/-- C7 counterexample: `model_c7a` and `model_c7b` are structurally identical
and differ only in one original node-output name, yet the produced IR graphs
have different final node-name lists: in the first, the Identity node's input
resolves to the initializer value (the name `w` collides with an initializer
name and its producer appears later), so the node is kept; in the second it is
elided. Final names here depend on an original file-supplied name. -/
theorem c7_counterexample :
    (build model_c7a).map (fun g => g.nodes.map (fun n => n.name)) =
      Except.ok ["identity1", "relu1"] ∧
    (build model_c7b).map (fun g => g.nodes.map (fun n => n.name)) =
      Except.ok ["relu1"] := ⟨by rfl, by rfl⟩

/-- The reserved-name guard for the renaming development: a name is reserved
when it is empty, starts with the five characters of `input`, or contains an
underscore — every name the builder generates (`input{k}`, `{name}_out{k}`,
`{name}_generated_const`, the cleared empty name) is reserved. -/
def rn_guard (s : String) : Bool :=
  decide ('_' ∈ s.data) || decide (s.data.take 5 = ['i', 'n', 'p', 'u', 't']) ||
    decide (s.data = [])

/-- The renaming actually applied to in-flight names: a reserved name is kept,
any other name goes through the file-level renaming. -/
def rn_of (ρ : String → String) (s : String) : String :=
  if rn_guard s then s else ρ s

/-- Renaming of a raw file node: only the input and output name lists are
renamed (the node's own name is not a node-output name). -/
def rename_node_proto (ρ : String → String) (p : NodeProto) : NodeProto :=
  { p with input := p.input.map ρ, output := p.output.map ρ }

/-- Renaming of a whole file: node-output names (and the node input references
to them) are renamed; declared inputs, outputs and initializers are not. -/
def rename_model (ρ : String → String) (m : ModelProto) : ModelProto :=
  ⟨⟨m.graph.node.map (rename_node_proto ρ), m.graph.input, m.graph.output,
    m.graph.initializer⟩⟩

/-- The hygiene conditions on a file renaming under which the builder is
name-oblivious: the renaming is injective, preserves unreservedness, fixes
every declared graph input/output and initializer name, every node
input/output name of the file is unreserved, and Constant/Identity nodes have
at most one output (the format's own requirement). -/
structure RenOk (ρ : String → String) (m : ModelProto) : Prop where
  inj : Function.Injective ρ
  guard_stable : ∀ s, rn_guard s = false → rn_guard (ρ s) = false
  fix_inputs : ∀ vi ∈ m.graph.input, ρ vi.name = vi.name
  fix_outputs : ∀ vi ∈ m.graph.output, ρ vi.name = vi.name
  fix_inits : ∀ t ∈ m.graph.initializer, ρ t.name = t.name
  io_unguarded : ∀ p ∈ m.graph.node,
    (∀ nm ∈ p.input, rn_guard nm = false) ∧ (∀ nm ∈ p.output, rn_guard nm = false)
  const_single : ∀ p ∈ m.graph.node,
    p.op_type = NodeType.Constant ∨ p.op_type = NodeType.Identity → p.output.length ≤ 1

theorem rn_of_guarded (ρ : String → String) (s : String) (h : rn_guard s = true) :
    rn_of ρ s = s := by rw [rn_of, if_pos h]

theorem rn_of_unguarded (ρ : String → String) (s : String) (h : rn_guard s = false) :
    rn_of ρ s = ρ s := by rw [rn_of, if_neg (by rw [h]; exact Bool.false_ne_true)]

theorem rn_of_fix (ρ : String → String) (s : String) (h : ρ s = s) : rn_of ρ s = s := by
  rw [rn_of]
  split
  · rfl
  · exact h

theorem rn_of_inj (ρ : String → String) (hinj : Function.Injective ρ)
    (hstable : ∀ s, rn_guard s = false → rn_guard (ρ s) = false) :
    Function.Injective (rn_of ρ) := by
  intro a b hab
  by_cases hga : rn_guard a = true
  · by_cases hgb : rn_guard b = true
    · rwa [rn_of_guarded ρ a hga, rn_of_guarded ρ b hgb] at hab
    · rw [rn_of_guarded ρ a hga, rn_of_unguarded ρ b (by simpa using hgb)] at hab
      have := hstable b (by simpa using hgb)
      rw [← hab] at this
      rw [hga] at this
      cases this
  · by_cases hgb : rn_guard b = true
    · rw [rn_of_unguarded ρ a (by simpa using hga), rn_of_guarded ρ b hgb] at hab
      have := hstable a (by simpa using hga)
      rw [hab] at this
      rw [hgb] at this
      cases this
    · rw [rn_of_unguarded ρ a (by simpa using hga), rn_of_unguarded ρ b (by simpa using hgb)] at hab
      exact hinj hab

theorem rn_guard_append_underscore (a b c : String) (h : '_' ∈ b.data) :
    rn_guard (a ++ b ++ c) = true := by
  simp only [rn_guard, Bool.or_eq_true, decide_eq_true_eq]
  refine Or.inl (Or.inl ?_)
  rw [String.data_append, String.data_append]
  exact List.mem_append.mpr (Or.inl (List.mem_append.mpr (Or.inr h)))

theorem rn_guard_out (a b : String) : rn_guard (a ++ "_out" ++ b) = true :=
  rn_guard_append_underscore a "_out" b (by decide)

theorem rn_guard_generated_const (a : String) : rn_guard (a ++ "_generated_const") = true := by
  simp only [rn_guard, Bool.or_eq_true, decide_eq_true_eq]
  refine Or.inl (Or.inl ?_)
  rw [String.data_append]
  exact List.mem_append.mpr (Or.inr (by decide))

theorem rn_guard_empty : rn_guard "" = true := by decide

theorem rn_guard_input_repr (k : Nat) : rn_guard ("input" ++ Nat.repr k) = true := by
  simp only [rn_guard, Bool.or_eq_true, decide_eq_true_eq]
  refine Or.inl (Or.inr ?_)
  rw [String.data_append]
  have h5 : (String.data "input").length = 5 := by decide
  rw [← h5, List.take_left]

/-- Renaming of an in-flight Argument. -/
def ren_arg (rn : String → String) (a : Argument) : Argument := { a with name := rn a.name }

/-- Renaming of an in-flight Node: argument names only; the node's own
(assigned) name is never an edge name. -/
def ren_node (rn : String → String) (n : Node) : Node :=
  { n with inputs := n.inputs.map (ren_arg rn), outputs := n.outputs.map (ren_arg rn) }

/-- Renaming of a map key. -/
def ren_key {α : Type} (rn : String → String) (p : String × α) : String × α := (rn p.1, p.2)

/-- Renaming of the registry state: graph inputs and outputs and the
initializer constants carry only fixed or generated names and stay equal; the
node-output pool and the name map are renamed. -/
def ren_gio (rn : String → String) (g : OnnxGraphIo) : OnnxGraphIo :=
  { inputs := g.inputs, outputs := g.outputs, initializers := g.initializers,
    node_out := g.node_out.map (ren_arg rn),
    old_io_names := g.old_io_names.map (ren_key rn) }

/-- Renaming of the builder state: counters and index sets are untouched; the
auxiliary maps are keyed by edge names and are renamed. -/
def ren_builder (rn : String → String) (b : BuilderState) : BuilderState :=
  { nodes := b.nodes.map (ren_node rn), node_name_counter := b.node_name_counter,
    nodes_to_remove := b.nodes_to_remove,
    constants_map := b.constants_map.map (ren_key rn),
    identity_idx := b.identity_idx.map (ren_key rn) }

/-- The relation between the two runs' registry states: the second is the
renamed first, initializer entries are keyed and named by fixed initializer
names, and all graph input/output slot names are fixed points of the
renaming. -/
structure GioRel (rn : String → String) (g1 g2 : OnnxGraphIo) : Prop where
  eq : g2 = ren_gio rn g1
  inits : ∀ p ∈ g1.initializers, rn p.1 = p.1 ∧ p.2.name = p.1
  inps : ∀ a ∈ g1.inputs, rn a.name = a.name
  outs : ∀ a ∈ g1.outputs, rn a.name = a.name

theorem alookup_map_key {α : Type} (rn : String → String) (hinj : Function.Injective rn) :
    ∀ (l : List (String × α)) (nm : String),
      alookup (l.map (ren_key rn)) (rn nm) = alookup l nm := by
  intro l
  induction l with
  | nil => intro nm; rfl
  | cons p rest ih =>
      intro nm
      obtain ⟨k, v⟩ := p
      simp only [List.map_cons, ren_key, alookup]
      by_cases hk : k = nm
      · subst hk
        rw [if_pos rfl, if_pos rfl]
      · rw [if_neg hk, if_neg (fun hc => hk (hinj hc))]
        exact ih nm

theorem alookup_fixed_keys {α : Type} (rn : String → String) (hinj : Function.Injective rn) :
    ∀ (l : List (String × α)) (nm : String), (∀ p ∈ l, rn p.1 = p.1) →
      alookup l (rn nm) = alookup l nm := by
  intro l
  induction l with
  | nil => intro nm _; rfl
  | cons p rest ih =>
      intro nm hfix
      obtain ⟨k, v⟩ := p
      have hk : rn k = k := (hfix (k, v) (List.mem_cons_self _ _))
      simp only [alookup]
      by_cases hkeq : k = nm
      · subst hkeq
        rw [hk, if_pos rfl]
      · have h2 : ¬ k = rn nm := by
          intro hc
          exact hkeq (hinj (by rw [← hc, hk]))
        rw [if_neg hkeq, if_neg h2]
        exact ih nm (fun q hq => hfix q (List.mem_cons_of_mem _ hq))

theorem modifyAt_map {α : Type} (f : α → α) (g : α → α) (g2 : α → α)
    (hcomm : ∀ a, g2 (f a) = f (g a)) :
    ∀ (l : List α) (i : Nat), modifyAt (l.map f) i g2 = (modifyAt l i g).map f := by
  intro l
  induction l with
  | nil => intro i; rfl
  | cons a rest ih =>
      intro i
      cases i with
      | zero => simp [modifyAt, hcomm]
      | succ n => simp [modifyAt, ih n]

theorem ren_arg_set_name (rn : String → String) (nn : String) (h : rn nn = nn) (a : Argument) :
    ren_arg rn { a with name := nn } = { ren_arg rn a with name := nn } := by
  simp [ren_arg, h]

theorem init_in_equiv (rn : String → String) (hinj : Function.Injective rn)
    (g1 g2 : OnnxGraphIo) (hrel : GioRel rn g1 g2) (nm : String) :
    g2.init_in (rn nm) = (g1.init_in nm).map (ren_arg rn) := by
  obtain ⟨heq, hinits, hinps, houts⟩ := hrel
  subst heq
  rw [OnnxGraphIo.init_in, OnnxGraphIo.init_in]
  rw [show (ren_gio rn g1).old_io_names = g1.old_io_names.map (ren_key rn) from rfl]
  rw [alookup_map_key rn hinj]
  cases hl : alookup g1.old_io_names nm with
  | none =>
      rw [show (ren_gio rn g1).initializers = g1.initializers from rfl]
      rw [alookup_fixed_keys rn hinj g1.initializers nm (fun p hp => (hinits p hp).1)]
      cases hi : alookup g1.initializers nm with
      | some ia =>
          have hmem := mem_of_alookup_eq_some hi
          have hname : ia.name = nm := (hinits _ hmem).2
          have hkey : rn nm = nm := (hinits _ hmem).1
          have hren : ren_arg rn ia = ia := by
            rw [ren_arg, hname, hkey, ← hname]
          simp [Except.map, hren]
      | none => simp [Except.map, ren_arg, Argument.new]
  | some e =>
      cases e with
      | In i =>
          rw [show (ren_gio rn g1).inputs = g1.inputs from rfl]
          cases hg : g1.inputs[i]? with
          | some a => simp [hg, Except.map, ren_arg]
          | none => simp [hg, Except.map, ren_arg, Argument.new]
      | Out i => simp [Except.map]
      | Node i =>
          have hmap : (List.map (ren_arg rn) g1.node_out).get? i
              = (g1.node_out.get? i).map (ren_arg rn) := List.get?_map _ _ _
          dsimp only [ren_gio]
          rw [hmap]
          cases hg : g1.node_out.get? i with
          | some a => simp [hg, Except.map, ren_arg]
          | none => simp [hg, Except.map, ren_arg, Argument.new]

theorem init_inputs_equiv (rn : String → String) (hinj : Function.Injective rn)
    (g1 g2 : OnnxGraphIo) (hrel : GioRel rn g1 g2) :
    ∀ (xs : List String),
      init_inputs g2 (xs.map rn) = (init_inputs g1 xs).map (List.map (ren_arg rn)) := by
  intro xs
  induction xs with
  | nil => rfl
  | cons x rest ih =>
      simp only [List.map_cons, init_inputs]
      rw [init_in_equiv rn hinj g1 g2 hrel x]
      cases hx : g1.init_in x with
      | error e => simp [Except.map, bind, Except.bind]
      | ok a =>
          simp only [Except.map, bind, Except.bind]
          rw [ih]
          cases hr : init_inputs g1 rest with
          | error e => simp [Except.map]
          | ok args => simp [Except.map]

theorem map_congr_mem {α β : Type} (f g : α → β) :
    ∀ (l : List α), (∀ a ∈ l, f a = g a) → l.map f = l.map g := by
  intro l
  induction l with
  | nil => intro _; rfl
  | cons a rest ih =>
      intro h
      simp only [List.map_cons]
      rw [h a (List.mem_cons_self _ _), ih (fun x hx => h x (List.mem_cons_of_mem _ hx))]

theorem forall_mem_modifyAt {α : Type} (P : α → Prop) (f : α → α) :
    ∀ (l : List α) (i : Nat), (∀ a ∈ l, P a) → (∀ a ∈ l, P (f a)) →
      ∀ a ∈ modifyAt l i f, P a := by
  intro l
  induction l with
  | nil => intro i _ _ a ha; cases ha
  | cons x rest ih =>
      intro i h hf a ha
      cases i with
      | zero =>
          rw [modifyAt] at ha
          rcases List.mem_cons.mp ha with heq | hmem
          · rw [heq]; exact hf x (List.mem_cons_self _ _)
          · exact h a (List.mem_cons_of_mem _ hmem)
      | succ n =>
          rw [modifyAt] at ha
          rcases List.mem_cons.mp ha with heq | hmem
          · rw [heq]; exact h x (List.mem_cons_self _ _)
          · exact ih n (fun b hb => h b (List.mem_cons_of_mem _ hb))
              (fun b hb => hf b (List.mem_cons_of_mem _ hb)) a hmem

theorem convert_node_proto_equiv (ρ rn : String → String) (hinj : Function.Injective rn)
    (g1 g2 : OnnxGraphIo) (hrel : GioRel rn g1 g2) (p : NodeProto)
    (hin : ∀ nm ∈ p.input, ρ nm = rn nm) (hout : ∀ nm ∈ p.output, ρ nm = rn nm) :
    convert_node_proto (rename_node_proto ρ p) g2 =
      (convert_node_proto p g1).map (ren_node rn) := by
  rw [convert_node_proto, convert_node_proto, rename_node_proto]
  simp only
  rw [map_congr_mem ρ rn p.input hin, init_inputs_equiv rn hinj g1 g2 hrel]
  cases hi : init_inputs g1 p.input with
  | error e => simp [Except.map, bind, Except.bind]
  | ok args =>
      simp only [Except.map, bind, Except.bind, Except.ok.injEq]
      have houtmap : (p.output.map ρ).map Argument.new =
          (p.output.map Argument.new).map (ren_arg rn) := by
        rw [List.map_map, List.map_map]
        exact map_congr_mem _ _ p.output
          (fun nm hm => by simp [Function.comp, hout nm hm, ren_arg, Argument.new])
      simp [ren_node, houtmap]

theorem handle_node_renaming_equiv (rn : String → String) (st : BuilderState) (node : Node) :
    handle_node_renaming (ren_builder rn st) (ren_node rn node) =
      ((ren_builder rn (handle_node_renaming st node).1),
        ren_node rn (handle_node_renaming st node).2) := by
  rfl

theorem rewrite_identity_input_equiv (rn : String → String) (hinj : Function.Injective rn)
    (st : BuilderState) (x : Argument) :
    rewrite_identity_input (ren_builder rn st) (ren_arg rn x) =
      (rewrite_identity_input st x).map (ren_arg rn) := by
  rw [rewrite_identity_input, rewrite_identity_input]
  rw [show (ren_builder rn st).identity_idx = st.identity_idx.map (ren_key rn) from rfl]
  rw [show (ren_arg rn x).name = rn x.name from rfl]
  rw [alookup_map_key rn hinj]
  cases hl : alookup st.identity_idx x.name with
  | none => simp [Except.map]
  | some idx =>
      dsimp only
      rw [show (ren_builder rn st).nodes = st.nodes.map (ren_node rn) from rfl]
      rw [List.get?_map]
      cases hn : st.nodes.get? idx with
      | none => simp [hn, Except.map]
      | some n =>
          simp only [hn, Option.map_some']
          rw [show (ren_node rn n).inputs = n.inputs.map (ren_arg rn) from rfl]
          rw [List.get?_map]
          cases hi : n.inputs.get? 0 with
          | none => simp [hi, Except.map]
          | some inp => simp [hi, Except.map, ren_arg]

theorem rewrite_identity_inputs_equiv (rn : String → String) (hinj : Function.Injective rn)
    (st : BuilderState) :
    ∀ (xs : List Argument),
      rewrite_identity_inputs (ren_builder rn st) (xs.map (ren_arg rn)) =
        (rewrite_identity_inputs st xs).map (List.map (ren_arg rn)) := by
  intro xs
  induction xs with
  | nil => rfl
  | cons x rest ih =>
      simp only [List.map_cons, rewrite_identity_inputs]
      rw [rewrite_identity_input_equiv rn hinj st x]
      cases hx : rewrite_identity_input st x with
      | error e => simp [Except.map, bind, Except.bind]
      | ok a =>
          simp only [Except.map, bind, Except.bind]
          rw [ih]
          cases hr : rewrite_identity_inputs st rest with
          | error e => simp [Except.map]
          | ok args => simp [Except.map]

theorem handle_identity_equiv (rn : String → String) (hinj : Function.Injective rn)
    (st : BuilderState) (node : Node) (i : Nat) :
    handle_identity (ren_builder rn st) (ren_node rn node) i =
      (handle_identity st node i).map (fun p => (ren_builder rn p.1, ren_node rn p.2)) := by
  rw [handle_identity, handle_identity]
  by_cases hid : node.node_type = NodeType.Identity
  · rw [if_pos (show (ren_node rn node).node_type = NodeType.Identity from hid), if_pos hid]
    rw [show (ren_node rn node).inputs = node.inputs.map (ren_arg rn) from rfl]
    rw [List.get?_map]
    cases h0 : node.inputs.get? 0 with
    | none => simp [Except.map]
    | some first =>
        simp only [Option.map_some']
        by_cases hv : first.value = none
        · rw [if_pos (show (ren_arg rn first).value = none from hv), if_pos hv]
          rw [show (ren_node rn node).outputs = node.outputs.map (ren_arg rn) from rfl]
          rw [List.get?_map]
          cases ho : node.outputs.get? 0 with
          | none => simp [Except.map]
          | some out0 =>
              simp only [Option.map_some']
              simp [Except.map, ren_builder, ren_key, ren_arg, ren_node]
        · rw [if_neg (show ¬ (ren_arg rn first).value = none from hv), if_neg hv]
          rw [rewrite_identity_inputs_equiv rn hinj st node.inputs]
          cases hr : rewrite_identity_inputs st node.inputs with
          | error e => simp [Except.map, bind, Except.bind]
          | ok inputs2 => simp [Except.map, bind, Except.bind, ren_node]
  · rw [if_neg (show ¬ (ren_node rn node).node_type = NodeType.Identity from hid), if_neg hid]
    rw [show (ren_node rn node).inputs = node.inputs.map (ren_arg rn) from rfl]
    rw [rewrite_identity_inputs_equiv rn hinj st node.inputs]
    cases hr : rewrite_identity_inputs st node.inputs with
    | error e => simp [Except.map, bind, Except.bind]
    | ok inputs2 => simp [Except.map, bind, Except.bind, ren_node]

theorem convert_constant_value_ren (rn : String → String) (n : Node) :
    convert_constant_value (ren_node rn n) = convert_constant_value n := rfl

theorem lift_constant_input_equiv (rn : String → String) (hinj : Function.Injective rn)
    (st : BuilderState) (x : Argument) :
    lift_constant_input (ren_builder rn st) (ren_arg rn x) =
      (lift_constant_input st x).map (fun p => (ren_builder rn p.1, ren_arg rn p.2)) := by
  rw [lift_constant_input, lift_constant_input]
  rw [show (ren_builder rn st).constants_map = st.constants_map.map (ren_key rn) from rfl]
  rw [show (ren_arg rn x).name = rn x.name from rfl]
  rw [alookup_map_key rn hinj]
  cases hl : alookup st.constants_map x.name with
  | none => simp [Except.map]
  | some cidx =>
      dsimp only
      rw [show (ren_builder rn st).nodes = st.nodes.map (ren_node rn) from rfl]
      rw [List.get?_map]
      cases hn : st.nodes.get? cidx with
      | none => simp [hn, Except.map]
      | some constant =>
          simp only [hn, Option.map_some']
          rw [show (ren_node rn constant).inputs = constant.inputs.map (ren_arg rn) from rfl]
          rw [List.get?_map]
          cases hc : constant.inputs.get? 0 with
          | none =>
              simp only [Option.map_none']
              rw [convert_constant_value_ren]
              cases hcv : convert_constant_value constant with
              | error e => simp [hcv, Except.map, bind, Except.bind]
              | ok arg =>
                  simp [hcv, Except.map, bind, Except.bind, ren_builder, ren_arg]
          | some cin0 =>
              simp only [Option.map_some']
              by_cases hv : cin0.value.isSome = true
              · rw [if_pos (show (ren_arg rn cin0).value.isSome = true from hv), if_pos hv]
                simp [Except.map, bind, Except.bind, ren_builder, ren_arg]
              · rw [if_neg (show ¬ (ren_arg rn cin0).value.isSome = true from hv), if_neg hv]
                rw [convert_constant_value_ren]
                cases hcv : convert_constant_value constant with
                | error e => simp [hcv, Except.map, bind, Except.bind]
                | ok arg =>
                    simp [hcv, Except.map, bind, Except.bind, ren_builder, ren_arg]

theorem lift_constants_loop_equiv (rn : String → String) (hinj : Function.Injective rn) :
    ∀ (xs : List Argument) (st : BuilderState),
      lift_constants_loop (ren_builder rn st) (xs.map (ren_arg rn)) =
        (lift_constants_loop st xs).map
          (fun p => (ren_builder rn p.1, p.2.map (ren_arg rn))) := by
  intro xs
  induction xs with
  | nil => intro st; rfl
  | cons x rest ih =>
      intro st
      simp only [List.map_cons, lift_constants_loop]
      rw [lift_constant_input_equiv rn hinj st x]
      cases hx : lift_constant_input st x with
      | error e => simp [Except.map, bind, Except.bind]
      | ok p =>
          obtain ⟨st1, a⟩ := p
          simp only [Except.map, bind, Except.bind]
          rw [ih st1]
          cases hr : lift_constants_loop st1 rest with
          | error e => simp [Except.map]
          | ok q => simp [Except.map]

theorem check_constants_equiv (rn : String → String) (hinj : Function.Injective rn)
    (st : BuilderState) (node : Node) (i : Nat) (g1 g2 : OnnxGraphIo) :
    check_constants (ren_builder rn st) (ren_node rn node) i g2 =
      (check_constants st node i g1).map (fun p => (ren_builder rn p.1, ren_node rn p.2)) := by
  rw [check_constants, check_constants]
  by_cases hc : node.node_type = NodeType.Constant
  · rw [if_pos (show (ren_node rn node).node_type = NodeType.Constant from hc), if_pos hc]
    rw [show (ren_node rn node).outputs = node.outputs.map (ren_arg rn) from rfl]
    rw [List.get?_map]
    cases ho : node.outputs.get? 0 with
    | none => simp [Except.map]
    | some out0 => simp [Except.map, ren_builder, ren_key, ren_arg]
  · rw [if_neg (show ¬ (ren_node rn node).node_type = NodeType.Constant from hc), if_neg hc]
    by_cases hid : node.node_type = NodeType.Identity
    · rw [if_pos (show (ren_node rn node).node_type = NodeType.Identity from hid), if_pos hid]
      rw [show (ren_node rn node).inputs = node.inputs.map (ren_arg rn) from rfl]
      rw [List.get?_map]
      cases h0 : node.inputs.get? 0 with
      | none => simp [Except.map]
      | some in0 =>
          simp only [Option.map_some']
          by_cases hv : in0.value.isSome = true
          · rw [if_pos (show (ren_arg rn in0).value.isSome = true from hv), if_pos hv]
            rw [show (ren_node rn node).outputs = node.outputs.map (ren_arg rn) from rfl]
            rw [List.get?_map]
            cases ho : node.outputs.get? 0 with
            | none => simp [Except.map]
            | some out0 => simp [Except.map, ren_builder, ren_key, ren_arg]
          · rw [if_neg (show ¬ (ren_arg rn in0).value.isSome = true from hv), if_neg hv]
            simp [Except.map]
    · rw [if_neg (show ¬ (ren_node rn node).node_type = NodeType.Identity from hid), if_neg hid]
      by_cases hl : node.node_type ∈ LIFT_CONSTANTS_FOR_NODE_TYPES
      · rw [if_pos (show (ren_node rn node).node_type ∈ LIFT_CONSTANTS_FOR_NODE_TYPES from hl),
          if_pos hl]
        rw [show (ren_node rn node).inputs = node.inputs.map (ren_arg rn) from rfl]
        cases hins : node.inputs with
        | nil => simp [Except.map, ren_node, hins]
        | cons first rest =>
            simp only [hins, List.map_cons]
            rw [lift_constants_loop_equiv rn hinj rest st]
            cases hr : lift_constants_loop st rest with
            | error e => simp [Except.map, bind, Except.bind]
            | ok q =>
                obtain ⟨stq, rest2⟩ := q
                simp [Except.map, bind, Except.bind, ren_node]
      · rw [if_neg (show ¬ (ren_node rn node).node_type ∈ LIFT_CONSTANTS_FOR_NODE_TYPES from hl),
          if_neg hl]
        simp [Except.map]

theorem get_node_output_equiv (rn : String → String) (hinj : Function.Injective rn)
    (g1 g2 : OnnxGraphIo) (hrel : GioRel rn g1 g2) (nm : String) :
    g2.get_node_output (rn nm) = g1.get_node_output nm ∧
      (∀ a, g1.get_node_output nm = Except.ok (some a) → rn a.name = a.name) := by
  obtain ⟨heq, hinits, hinps, houts⟩ := hrel
  subst heq
  rw [OnnxGraphIo.get_node_output, OnnxGraphIo.get_node_output]
  rw [show (ren_gio rn g1).old_io_names = g1.old_io_names.map (ren_key rn) from rfl]
  rw [alookup_map_key rn hinj]
  cases hl : alookup g1.old_io_names nm with
  | none => exact ⟨rfl, fun a ha => by cases ha⟩
  | some e =>
      cases e with
      | In i =>
          refine ⟨rfl, ?_⟩
          intro a ha
          simp only [Except.ok.injEq] at ha
          cases hg : g1.inputs.get? i with
          | none => rw [hg] at ha; cases ha
          | some b =>
              rw [hg] at ha
              cases ha
              exact hinps a (List.get?_mem hg)
      | Out i =>
          refine ⟨rfl, ?_⟩
          intro a ha
          simp only [Except.ok.injEq] at ha
          cases hg : g1.outputs.get? i with
          | none => rw [hg] at ha; cases ha
          | some b =>
              rw [hg] at ha
              cases ha
              exact houts a (List.get?_mem hg)
      | Node i => exact ⟨rfl, fun a ha => by cases ha⟩

theorem update_name_equiv (rn : String → String) (hinj : Function.Injective rn)
    (g1 g2 : OnnxGraphIo) (hrel : GioRel rn g1 g2) (a : Argument) (nn : String)
    (hnn : rn nn = nn) :
    g2.update_name (ren_arg rn a) nn = (g1.update_name a nn).map (ren_gio rn) := by
  obtain ⟨heq, hinits, hinps, houts⟩ := hrel
  subst heq
  rw [OnnxGraphIo.update_name, OnnxGraphIo.update_name]
  rw [show (ren_gio rn g1).old_io_names = g1.old_io_names.map (ren_key rn) from rfl]
  rw [show (ren_arg rn a).name = rn a.name from rfl]
  rw [alookup_map_key rn hinj]
  cases hl : alookup g1.old_io_names a.name with
  | none => simp [Except.map]
  | some e =>
      cases e with
      | In i => simp [Except.map]
      | Out i => simp [Except.map, ren_gio]
      | Node i =>
          simp only [Except.map, Except.ok.injEq]
          rw [show (ren_gio rn g1).node_out = g1.node_out.map (ren_arg rn) from rfl]
          rw [modifyAt_map (ren_arg rn) (fun b => { b with name := nn })
            (fun b => { b with name := nn }) (fun b => (ren_arg_set_name rn nn hnn b).symm)]
          rfl

theorem insert_equiv (rn : String → String) (hinj : Function.Injective rn)
    (g1 g2 : OnnxGraphIo) (hrel : GioRel rn g1 g2) (a : Argument) (nn : String)
    (hnn : rn nn = nn) :
    g2.insert (ren_arg rn a) nn = ren_gio rn (g1.insert a nn) := by
  obtain ⟨heq, hinits, hinps, houts⟩ := hrel
  subst heq
  rw [OnnxGraphIo.insert, OnnxGraphIo.insert]
  rw [show (ren_gio rn g1).old_io_names = g1.old_io_names.map (ren_key rn) from rfl]
  rw [show (ren_arg rn a).name = rn a.name from rfl]
  rw [alookup_map_key rn hinj]
  cases hl : alookup g1.old_io_names a.name with
  | none =>
      dsimp only
      rw [show (ren_gio rn g1).node_out = g1.node_out.map (ren_arg rn) from rfl]
      simp [ren_gio, ren_key, ren_arg, hnn, List.length_map]
  | some e =>
      cases e with
      | In i =>
          dsimp only
          rw [show (ren_gio rn g1).node_out = g1.node_out.map (ren_arg rn) from rfl]
          simp [ren_gio, ren_key, ren_arg, hnn, List.length_map]
      | Out i =>
          dsimp only
          rw [show (ren_gio rn g1).node_out = g1.node_out.map (ren_arg rn) from rfl]
          simp [ren_gio, ren_key, ren_arg, hnn, List.length_map]
      | Node idx =>
          dsimp only
          rw [show (ren_gio rn g1).node_out = g1.node_out.map (ren_arg rn) from rfl]
          rw [List.get?_map]
          cases hg : g1.node_out.get? idx with
          | none => simp [ren_gio, ren_key, ren_arg, hnn, List.length_map]
          | some pooled =>
              simp only [Option.map_some']
              by_cases hpn : pooled.name = a.name
              · rw [if_pos (show (ren_arg rn pooled).name = rn a.name by
                    simp [ren_arg, hpn]), if_pos hpn]
                rw [modifyAt_map (ren_arg rn) (fun b => { b with name := nn })
                  (fun b => { b with name := nn }) (fun b => (ren_arg_set_name rn nn hnn b).symm)]
                rfl
              · rw [if_neg (show ¬ (ren_arg rn pooled).name = rn a.name from
                    fun hc => hpn (hinj hc)), if_neg hpn]
                simp [ren_gio, ren_key, ren_arg, hnn, List.length_map]

/-- A synthetic node carrying only an output list, for stating the
`update_tensor_output` fold equivariance. -/
def outs_node (outs : List Argument) : Node :=
  { node_type := NodeType.Relu, name := "", inputs := [], outputs := outs, attrs := [] }

theorem uts_step_equiv (rn : String → String) (hinj : Function.Injective rn)
    (g1 g2 : OnnxGraphIo) (hrel : GioRel rn g1 g2) (o : Argument) :
    GioRel rn (g1.update_tensor_output (outs_node [o]))
      (g2.update_tensor_output (outs_node [ren_arg rn o])) := by
  obtain ⟨heq, hinits, hinps, houts⟩ := hrel
  subst heq
  rw [OnnxGraphIo.update_tensor_output, OnnxGraphIo.update_tensor_output]
  rw [show (outs_node [o]).outputs = [o] from rfl]
  rw [show (outs_node [ren_arg rn o]).outputs = [ren_arg rn o] from rfl]
  rw [List.foldl_cons, List.foldl_cons, List.foldl_nil, List.foldl_nil]
  rw [show (ren_arg rn o).name = rn o.name from rfl]
  rw [show (ren_gio rn g1).old_io_names = g1.old_io_names.map (ren_key rn) from rfl]
  rw [alookup_map_key rn hinj]
  cases hl : alookup g1.old_io_names o.name with
  | none =>
      dsimp only
      refine ⟨?_, hinits, hinps, houts⟩
      simp [ren_gio, ren_key, ren_arg, List.map_append, List.length_map]
  | some e =>
      cases e with
      | In i =>
          dsimp only
          refine ⟨rfl, hinits, ?_, houts⟩
          exact forall_mem_modifyAt _ (fun a => a.copy_value (ren_arg rn o)) g1.inputs i hinps
            (fun a ha => hinps a ha)
      | Out i =>
          dsimp only
          refine ⟨rfl, hinits, hinps, ?_⟩
          exact forall_mem_modifyAt _
            (fun a => { a.copy_value (ren_arg rn o) with passed := true }) g1.outputs i houts
            (fun a ha => houts a ha)
      | Node i => exact ⟨rfl, hinits, hinps, houts⟩

theorem update_tensor_output_fold_equiv (rn : String → String) (hinj : Function.Injective rn) :
    ∀ (outs : List Argument) (g1 g2 : OnnxGraphIo), GioRel rn g1 g2 →
      GioRel rn (g1.update_tensor_output (outs_node outs))
        (g2.update_tensor_output (outs_node (outs.map (ren_arg rn)))) := by
  intro outs
  induction outs with
  | nil => intro g1 g2 hrel; exact hrel
  | cons o rest ih =>
      intro g1 g2 hrel
      exact ih _ _ (uts_step_equiv rn hinj g1 g2 hrel o)

theorem update_tensor_output_equiv (rn : String → String) (hinj : Function.Injective rn)
    (node : Node) (g1 g2 : OnnxGraphIo) (hrel : GioRel rn g1 g2) :
    GioRel rn (g1.update_tensor_output node) (g2.update_tensor_output (ren_node rn node)) :=
  update_tensor_output_fold_equiv rn hinj node.outputs g1 g2 hrel

theorem get_new_name_equiv (rn : String → String) (hinj : Function.Injective rn)
    (g1 g2 : OnnxGraphIo) (hrel : GioRel rn g1 g2) (nm : String) :
    g2.get_new_name (rn nm) =
      (g1.get_new_name nm).map (fun p => (ren_gio rn p.1, p.2.map rn)) ∧
    (∀ g1' s, g1.get_new_name nm = Except.ok (g1', s) → GioRel rn g1' (ren_gio rn g1')) := by
  obtain ⟨heq, hinits, hinps, houts⟩ := hrel
  subst heq
  constructor
  · rw [OnnxGraphIo.get_new_name, OnnxGraphIo.get_new_name]
    rw [show (ren_gio rn g1).old_io_names = g1.old_io_names.map (ren_key rn) from rfl]
    rw [alookup_map_key rn hinj]
    cases hl : alookup g1.old_io_names nm with
    | none => simp [Except.map]
    | some e =>
        cases e with
        | In i =>
            rw [show (ren_gio rn g1).initializers = g1.initializers from rfl]
            rw [alookup_fixed_keys rn hinj g1.initializers nm (fun p hp => (hinits p hp).1)]
            dsimp only
            by_cases hi : (alookup g1.initializers nm).isSome = true
            · rw [if_pos hi, if_pos hi]
              simp [Except.map]
            · rw [if_neg hi, if_neg hi]
              rw [show (ren_gio rn g1).inputs = g1.inputs from rfl]
              cases hg : g1.inputs[i]? with
              | none => simp [hg, Except.map]
              | some arg =>
                  have hg' : g1.inputs.get? i = some arg := by
                    rw [List.get?_eq_getElem?]; exact hg
                  have hfix := hinps arg (List.get?_mem hg')
                  rw [hg']
                  simp [Except.map, ren_gio, hfix]
        | Out i => simp [Except.map]
        | Node i =>
            dsimp only
            rw [show (ren_gio rn g1).node_out = g1.node_out.map (ren_arg rn) from rfl]
            have hmap : (List.map (ren_arg rn) g1.node_out).get? i
                = (g1.node_out.get? i).map (ren_arg rn) := List.get?_map _ _ _
            rw [hmap]
            cases hg : g1.node_out.get? i with
            | none => simp [hg, Except.map]
            | some arg => simp [hg, Except.map, ren_arg]
  · intro g1' s hok
    rw [OnnxGraphIo.get_new_name] at hok
    split at hok
    · rename_i i heq2
      split at hok
      · cases hok
        exact ⟨rfl, hinits, hinps, houts⟩
      · split at hok
        · rename_i arg harg
          cases hok
          refine ⟨rfl, hinits, ?_, houts⟩
          exact forall_mem_modifyAt _ (fun a => { a with passed := true }) g1.inputs _ hinps
            (fun a ha => hinps a ha)
        · cases hok
          exact ⟨rfl, hinits, hinps, houts⟩
    · cases hok
    · split at hok
      · cases hok
        exact ⟨rfl, hinits, hinps, houts⟩
      · cases hok
        exact ⟨rfl, hinits, hinps, houts⟩
    · cases hok
      exact ⟨rfl, hinits, hinps, houts⟩

theorem ren_arg_inj (rn : String → String) (hinj : Function.Injective rn) :
    Function.Injective (ren_arg rn) := by
  intro a b hab
  cases a; cases b
  simp only [ren_arg, Argument.mk.injEq] at hab ⊢
  exact ⟨hinj hab.1, hab.2.1, hab.2.2.1, hab.2.2.2⟩

theorem all_congr_mem {α : Type} (p q : α → Bool) :
    ∀ (l : List α), (∀ a ∈ l, p a = q a) → l.all p = l.all q := by
  intro l
  induction l with
  | nil => intro _; rfl
  | cons a rest ih =>
      intro h
      simp only [List.all_cons]
      rw [h a (List.mem_cons_self _ _), ih (fun x hx => h x (List.mem_cons_of_mem _ hx))]

theorem rn_guard_append_right (a b : String) (h : '_' ∈ b.data) :
    rn_guard (a ++ b) = true := by
  simp only [rn_guard, Bool.or_eq_true, decide_eq_true_eq]
  refine Or.inl (Or.inl ?_)
  rw [String.data_append]
  exact List.mem_append.mpr (Or.inr h)

theorem positions_map_ren (rn : String → String) (nodes : List Node) :
    ((nodes.map (ren_node rn)).enum.foldl (fun m p => (p.2.name, p.1) :: m)
        ([] : List (String × Nat))) =
      nodes.enum.foldl (fun m p => (p.2.name, p.1) :: m) [] := by
  rw [List.enum_map, List.foldl_map]
  rfl

theorem is_top_sorted_map_ren (rn : String → String) (hinj : Function.Injective rn)
    (nodes : List Node) :
    is_top_sorted (nodes.map (ren_node rn)) = is_top_sorted nodes := by
  simp only [is_top_sorted]
  rw [positions_map_ren rn nodes]
  rw [List.all_map]
  refine all_congr_mem _ _ nodes (fun node hnode => ?_)
  simp only [Function.comp]
  rw [show (ren_node rn node).outputs = node.outputs.map (ren_arg rn) from rfl]
  rw [List.all_map]
  refine all_congr_mem _ _ node.outputs (fun output houtput => ?_)
  simp only [Function.comp]
  rw [List.all_map]
  refine all_congr_mem _ _ nodes (fun other hother => ?_)
  simp only [Function.comp]
  rw [show (ren_node rn other).inputs = other.inputs.map (ren_arg rn) from rfl]
  rw [show (ren_node rn other).name = other.name from rfl]
  rw [show (ren_node rn node).name = node.name from rfl]
  rw [decide_eq_decide.mpr (List.mem_map_of_injective (ren_arg_inj rn hinj))]

theorem fallback_convert_ren (ρ : String → String) (p : NodeProto) :
    fallback_convert_node_proto (rename_node_proto ρ p) =
      ren_node ρ (fallback_convert_node_proto p) := by
  simp only [fallback_convert_node_proto, rename_node_proto, ren_node, List.map_map]
  refine congrArg₂ (fun a b => Node.mk p.op_type p.name a b p.attrs) ?_ ?_ <;>
    exact map_congr_mem _ _ _ (fun nm _ => rfl)

theorem check_validity_equiv (ρ : String → String) (hinj : Function.Injective ρ)
    (m : ModelProto) :
    check_validity (rename_model ρ m) = check_validity m := by
  simp only [check_validity, rename_model]
  have h : ((m.graph.node.map (rename_node_proto ρ)).map fallback_convert_node_proto)
      = (m.graph.node.map fallback_convert_node_proto).map (ren_node ρ) := by
    rw [List.map_map, List.map_map]
    exact map_congr_mem _ _ _ (fun p _ => fallback_convert_ren ρ p)
  simp only [h, is_top_sorted_map_ren ρ hinj]

theorem map_ren_key_fixed {α : Type} (rn : String → String) :
    ∀ (l : List (String × α)), (∀ p ∈ l, rn p.1 = p.1) → l.map (ren_key rn) = l := by
  intro l
  induction l with
  | nil => intro _; rfl
  | cons p rest ih =>
      intro h
      simp only [List.map_cons, ren_key]
      rw [h p (List.mem_cons_self _ _), ih (fun q hq => h q (List.mem_cons_of_mem _ hq))]

theorem insert_preserves (g : OnnxGraphIo) (a : Argument) (nn : String) :
    (g.insert a nn).inputs = g.inputs ∧ (g.insert a nn).outputs = g.outputs ∧
      (g.insert a nn).initializers = g.initializers := by
  rw [OnnxGraphIo.insert]
  cases hl : alookup g.old_io_names a.name with
  | none => exact ⟨rfl, rfl, rfl⟩
  | some e =>
      cases e with
      | In i => exact ⟨rfl, rfl, rfl⟩
      | Out i => exact ⟨rfl, rfl, rfl⟩
      | Node idx =>
          dsimp only
          cases hg : g.node_out.get? idx with
          | none => exact ⟨rfl, rfl, rfl⟩
          | some pooled =>
              dsimp only
              by_cases hpn : pooled.name = a.name
              · rw [if_pos hpn]; exact ⟨rfl, rfl, rfl⟩
              · rw [if_neg hpn]; exact ⟨rfl, rfl, rfl⟩

theorem update_name_ok_preserves (g : OnnxGraphIo) (a : Argument) (nn : String)
    (g' : OnnxGraphIo) (hok : g.update_name a nn = Except.ok g') :
    g'.inputs = g.inputs ∧ (∀ b ∈ g'.outputs, ∃ c ∈ g.outputs, b.name = c.name ∨ b.name = nn) ∧
      g'.initializers = g.initializers := by
  rw [OnnxGraphIo.update_name] at hok
  cases hl : alookup g.old_io_names a.name with
  | none => rw [hl] at hok; cases hok
  | some e =>
      cases e with
      | In i => rw [hl] at hok; cases hok
      | Out i =>
          rw [hl] at hok
          cases hok
          refine ⟨rfl, ?_, rfl⟩
          intro b hb
          have := forall_mem_modifyAt (fun x => ∃ c ∈ g.outputs, x.name = c.name ∨ x.name = nn)
            (fun x => { x with name := nn }) g.outputs i
            (fun c hc => ⟨c, hc, Or.inl rfl⟩) (fun c hc => ⟨c, hc, Or.inr rfl⟩) b hb
          exact this
      | Node i =>
          rw [hl] at hok
          cases hok
          exact ⟨rfl, fun b hb => ⟨b, hb, Or.inl rfl⟩, rfl⟩

theorem rename_io_inputs_equiv (rn : String → String) (hinj : Function.Injective rn)
    (hguard : ∀ s, rn_guard s = true → rn s = s) (m1 m2 : ModelProto)
    (hcv : check_validity m2 = check_validity m1) :
    ∀ (xs : List Argument) (g1 g2 : OnnxGraphIo), GioRel rn g1 g2 →
      (rename_io_inputs g2 m2 (xs.map (ren_arg rn)) =
        (rename_io_inputs g1 m1 xs).map
          (fun p => (ren_gio rn p.1, p.2.map (ren_arg rn)))) ∧
      (∀ g1f ys, rename_io_inputs g1 m1 xs = Except.ok (g1f, ys) →
        GioRel rn g1f (ren_gio rn g1f)) := by
  intro xs
  induction xs with
  | nil =>
      intro g1 g2 hrel
      constructor
      · rw [List.map_nil, rename_io_inputs, rename_io_inputs, hrel.eq]
        rfl
      · intro g1f ys hok
        rw [rename_io_inputs] at hok
        cases hok
        exact ⟨rfl, hrel.inits, hrel.inps, hrel.outs⟩
  | cons x rest ih =>
      intro g1 g2 hrel
      have hgnn := get_new_name_equiv rn hinj g1 g2 hrel x.name
      constructor
      · simp only [List.map_cons, rename_io_inputs]
        rw [show (ren_arg rn x).name = rn x.name from rfl]
        rw [hgnn.1]
        cases hx : g1.get_new_name x.name with
        | error e =>
            simp only [Except.map]
            rw [hcv]
            cases hv : check_validity m1 with
            | error e2 => simp [bind, Except.bind]
            | ok u =>
                simp only [bind, Except.bind]
                rw [(ih g1 g2 hrel).1]
                cases hr : rename_io_inputs g1 m1 rest with
                | error e3 => simp [Except.map]
                | ok q =>
                    obtain ⟨g1b, ys⟩ := q
                    simp [Except.map]
        | ok p =>
            obtain ⟨g1a, so⟩ := p
            have hinv : GioRel rn g1a (ren_gio rn g1a) := hgnn.2 g1a so hx
            cases so with
            | some nn =>
                simp only [Except.map, Option.map_some']
                rw [(ih g1a (ren_gio rn g1a) hinv).1]
                cases hr : rename_io_inputs g1a m1 rest with
                | error e3 => simp [Except.map, bind, Except.bind]
                | ok q =>
                    obtain ⟨g1b, ys⟩ := q
                    simp [Except.map, bind, Except.bind, ren_arg]
            | none =>
                simp only [Except.map, Option.map_none']
                rw [(ih g1a (ren_gio rn g1a) hinv).1]
                cases hr : rename_io_inputs g1a m1 rest with
                | error e3 => simp [Except.map, bind, Except.bind]
                | ok q =>
                    obtain ⟨g1b, ys⟩ := q
                    simp [Except.map, bind, Except.bind, ren_arg, hguard "" rn_guard_empty]
      · intro g1f ys hok
        rw [rename_io_inputs] at hok
        split at hok
        · rename_i g1a nn hx
          cases hr : rename_io_inputs g1a m1 rest with
          | error e3 => rw [hr] at hok; simp [bind, Except.bind] at hok
          | ok q =>
              obtain ⟨g1b, ys2⟩ := q
              rw [hr] at hok
              simp only [bind, Except.bind, Except.ok.injEq, Prod.mk.injEq] at hok
              have hinv : GioRel rn g1a (ren_gio rn g1a) := hgnn.2 g1a (some nn) hx
              have := (ih g1a (ren_gio rn g1a) hinv).2 g1b ys2 hr
              rw [hok.1] at this
              exact this
        · rename_i g1a hx
          cases hr : rename_io_inputs g1a m1 rest with
          | error e3 => rw [hr] at hok; simp [bind, Except.bind] at hok
          | ok q =>
              obtain ⟨g1b, ys2⟩ := q
              rw [hr] at hok
              simp only [bind, Except.bind, Except.ok.injEq, Prod.mk.injEq] at hok
              have hinv : GioRel rn g1a (ren_gio rn g1a) := hgnn.2 g1a none hx
              have := (ih g1a (ren_gio rn g1a) hinv).2 g1b ys2 hr
              rw [hok.1] at this
              exact this
        · rename_i e hx
          cases hv : check_validity m1 with
          | error e2 => rw [hv] at hok; simp [bind, Except.bind] at hok
          | ok u =>
              rw [hv] at hok
              cases hr : rename_io_inputs g1 m1 rest with
              | error e3 => rw [hr] at hok; simp [bind, Except.bind] at hok
              | ok q =>
                  obtain ⟨g1b, ys2⟩ := q
                  rw [hr] at hok
                  simp only [bind, Except.bind, Except.ok.injEq, Prod.mk.injEq] at hok
                  have := (ih g1 g2 hrel).2 g1b ys2 hr
                  rw [hok.1] at this
                  exact this

theorem rename_outputs_loop_equiv (rn : String → String) (hinj : Function.Injective rn)
    (hguard : ∀ s, rn_guard s = true → rn s = s) (node_name : String) :
    ∀ (xs : List Argument) (k : Nat) (g1 g2 : OnnxGraphIo), GioRel rn g1 g2 →
      (rename_outputs_loop g2 node_name k (xs.map (ren_arg rn)) =
        (ren_gio rn (rename_outputs_loop g1 node_name k xs).1,
          (rename_outputs_loop g1 node_name k xs).2.map (ren_arg rn))) ∧
      GioRel rn (rename_outputs_loop g1 node_name k xs).1
        (ren_gio rn (rename_outputs_loop g1 node_name k xs).1) := by
  intro xs
  induction xs with
  | nil =>
      intro k g1 g2 hrel
      rw [List.map_nil, rename_outputs_loop, rename_outputs_loop]
      exact ⟨by rw [hrel.eq]; rfl, ⟨rfl, hrel.inits, hrel.inps, hrel.outs⟩⟩
  | cons o rest ih =>
      intro k g1 g2 hrel
      have hnn : rn (node_name ++ "_out" ++ Nat.repr k) = node_name ++ "_out" ++ Nat.repr k :=
        hguard _ (rn_guard_out node_name (Nat.repr k))
      have hupd := update_name_equiv rn hinj g1 g2 hrel o (node_name ++ "_out" ++ Nat.repr k) hnn
      simp only [List.map_cons, rename_outputs_loop]
      rw [hupd]
      cases hu : g1.update_name o (node_name ++ "_out" ++ Nat.repr k) with
      | error e =>
          simp only [Except.map]
          have hrec := ih (k + 1) g1 g2 hrel
          rw [hrec.1]
          exact ⟨by rw [ren_arg_set_name rn _ hnn o], hrec.2⟩
      | ok g1n =>
          simp only [Except.map]
          have hpres := update_name_ok_preserves g1 o (node_name ++ "_out" ++ Nat.repr k) g1n hu
          have hreln : GioRel rn g1n (ren_gio rn g1n) := by
            refine ⟨rfl, ?_, ?_, ?_⟩
            · rw [hpres.2.2]; exact hrel.inits
            · rw [hpres.1]; exact hrel.inps
            · intro b hb
              obtain ⟨c, hc, hcase⟩ := hpres.2.1 b hb
              cases hcase with
              | inl h => rw [h]; exact hrel.outs c hc
              | inr h => rw [h]; exact hnn
          have hrec := ih (k + 1) g1n (ren_gio rn g1n) hreln
          rw [hrec.1]
          exact ⟨by rw [ren_arg_set_name rn _ hnn o], hrec.2⟩

theorem rename_io_outputs_equiv (rn : String → String) (hinj : Function.Injective rn)
    (hguard : ∀ s, rn_guard s = true → rn s = s)
    (node : Node) (g1 g2 : OnnxGraphIo) (hrel : GioRel rn g1 g2) :
    (rename_io_outputs g2 (ren_node rn node) =
      (rename_io_outputs g1 node).map (fun p => (ren_gio rn p.1, ren_node rn p.2))) ∧
    (∀ g1f n2, rename_io_outputs g1 node = Except.ok (g1f, n2) →
      GioRel rn g1f (ren_gio rn g1f)) := by
  rw [rename_io_outputs, rename_io_outputs]
  by_cases hck : node.node_type = NodeType.Constant ∨ node.node_type = NodeType.Identity
  · rw [if_pos (show (ren_node rn node).node_type = NodeType.Constant ∨
        (ren_node rn node).node_type = NodeType.Identity from hck), if_pos hck]
    rw [show (ren_node rn node).outputs = node.outputs.map (ren_arg rn) from rfl]
    rw [List.get?_map]
    cases ho : node.outputs.get? 0 with
    | none => exact ⟨by simp [Except.map], fun g1f n2 h => by cases h⟩
    | some out0 =>
        simp only [Option.map_some']
        have hnn : rn (node.name ++ "_out1") = node.name ++ "_out1" :=
          hguard _ (rn_guard_append_right node.name "_out1" (by decide))
        have hins := insert_equiv rn hinj g1 g2 hrel out0 (node.name ++ "_out1") hnn
        have hpres := insert_preserves g1 out0 (node.name ++ "_out1")
        constructor
        · rw [show (ren_node rn node).name = node.name from rfl]
          rw [hins]
          simp only [Except.map, Except.ok.injEq, Prod.mk.injEq]
          refine ⟨trivial, ?_⟩
          rw [modifyAt_map (ren_arg rn) (fun a => { a with name := node.name ++ "_out1" })
            (fun a => { a with name := node.name ++ "_out1" })
            (fun a => (ren_arg_set_name rn _ hnn a).symm)]
          simp [ren_node]
        · intro g1f n2 h
          simp only [Except.ok.injEq, Prod.mk.injEq] at h
          rw [← h.1]
          exact ⟨rfl, by rw [hpres.2.2]; exact hrel.inits, by rw [hpres.1]; exact hrel.inps,
            by rw [hpres.2.1]; exact hrel.outs⟩
  · rw [if_neg (show ¬ ((ren_node rn node).node_type = NodeType.Constant ∨
        (ren_node rn node).node_type = NodeType.Identity) from hck), if_neg hck]
    have hloop := rename_outputs_loop_equiv rn hinj hguard node.name node.outputs 1 g1 g2 hrel
    rcases hlp : rename_outputs_loop g1 node.name 1 node.outputs with ⟨ga, outs⟩
    rw [hlp] at hloop
    constructor
    · rw [show (ren_node rn node).outputs = node.outputs.map (ren_arg rn) from rfl]
      rw [show (ren_node rn node).name = node.name from rfl]
      rw [hloop.1]
      simp [Except.map, ren_node]
    · intro g1f n2 h
      simp only [Except.ok.injEq, Prod.mk.injEq] at h
      rw [← h.1]
      exact hloop.2

theorem rename_io_equiv (rn : String → String) (hinj : Function.Injective rn)
    (hguard : ∀ s, rn_guard s = true → rn s = s) (m1 m2 : ModelProto)
    (hcv : check_validity m2 = check_validity m1)
    (node : Node) (g1 g2 : OnnxGraphIo) (hrel : GioRel rn g1 g2) :
    (rename_io (ren_node rn node) g2 m2 =
      (rename_io node g1 m1).map (fun p => (ren_node rn p.1, ren_gio rn p.2))) ∧
    (∀ n2 g1f, rename_io node g1 m1 = Except.ok (n2, g1f) →
      GioRel rn g1f (ren_gio rn g1f)) := by
  rw [rename_io, rename_io]
  have hins := rename_io_inputs_equiv rn hinj hguard m1 m2 hcv node.inputs g1 g2 hrel
  constructor
  · rw [show (ren_node rn node).inputs = node.inputs.map (ren_arg rn) from rfl]
    rw [hins.1]
    cases hi : rename_io_inputs g1 m1 node.inputs with
    | error e => simp [Except.map, bind, Except.bind]
    | ok q =>
        obtain ⟨g1a, ys⟩ := q
        simp only [Except.map, bind, Except.bind]
        have hinv : GioRel rn g1a (ren_gio rn g1a) := hins.2 g1a ys hi
        have houtp := rename_io_outputs_equiv rn hinj hguard { node with inputs := ys }
          g1a (ren_gio rn g1a) hinv
        have hnode2 : ({ ren_node rn node with inputs := ys.map (ren_arg rn) } : Node) =
            ren_node rn { node with inputs := ys } := by
          simp [ren_node]
        rw [hnode2, houtp.1]
        cases ho : rename_io_outputs g1a { node with inputs := ys } with
        | error e => simp [Except.map]
        | ok q2 =>
            obtain ⟨g1b, n2⟩ := q2
            simp [Except.map]
  · intro n2 g1f hok
    cases hi : rename_io_inputs g1 m1 node.inputs with
    | error e => rw [hi] at hok; simp [bind, Except.bind] at hok
    | ok q =>
        obtain ⟨g1a, ys⟩ := q
        rw [hi] at hok
        simp only [bind, Except.bind] at hok
        have hinv : GioRel rn g1a (ren_gio rn g1a) := hins.2 g1a ys hi
        have houtp := rename_io_outputs_equiv rn hinj hguard { node with inputs := ys }
          g1a (ren_gio rn g1a) hinv
        cases ho : rename_io_outputs g1a { node with inputs := ys } with
        | error e => rw [ho] at hok; simp at hok
        | ok q2 =>
            obtain ⟨g1b, n3⟩ := q2
            rw [ho] at hok
            simp only [Except.ok.injEq, Prod.mk.injEq] at hok
            rw [← hok.2]
            exact houtp.2 g1b n3 ho

theorem node_reshape_ren (rn : String → String) (node : Node) (R out_arg : Argument)
    (hR : ren_arg rn R = R) (ho : ren_arg rn out_arg = out_arg) :
    Node.mk NodeType.Reshape node.name
        (modifyAt (node.inputs.map (ren_arg rn)) 1 (fun _ => R))
        (modifyAt (node.outputs.map (ren_arg rn)) 0 (fun _ => out_arg)) node.attrs =
      ren_node rn (Node.mk NodeType.Reshape node.name (modifyAt node.inputs 1 (fun _ => R))
        (modifyAt node.outputs 0 (fun _ => out_arg)) node.attrs) := by
  rw [modifyAt_map (ren_arg rn) (fun _ => R) (fun _ => R) (fun a => hR.symm)]
  rw [modifyAt_map (ren_arg rn) (fun _ => out_arg) (fun _ => out_arg) (fun a => ho.symm)]
  rfl

theorem remap_unsqueeze_equiv (rn : String → String) (node : Node) (out_arg : Argument)
    (hgen : rn (node.name ++ "_generated_const") = node.name ++ "_generated_const")
    (harg : rn out_arg.name = out_arg.name) :
    remap_unsqueeze_to_reshape (ren_node rn node) out_arg =
      (remap_unsqueeze_to_reshape node out_arg).map (ren_node rn) := by
  rw [remap_unsqueeze_to_reshape, remap_unsqueeze_to_reshape]
  rw [show (ren_node rn node).outputs = node.outputs.map (ren_arg rn) from rfl]
  rw [List.get?_map]
  cases h0 : node.outputs.get? 0 with
  | none => simp [Except.map]
  | some out0 =>
      simp only [Option.map_some']
      rw [show (ren_arg rn out0).ty = out0.ty from rfl]
      cases hty : out0.ty with
      | Scalar e => simp [Except.map]
      | Tensor t =>
          dsimp only
          cases haty : out_arg.ty with
          | Scalar e2 => simp [Except.map]
          | Tensor t2 =>
              dsimp only
              cases hshp : t2.shape with
              | none => simp [Except.map]
              | some shp =>
                  dsimp only
                  rw [show (ren_node rn node).name = node.name from rfl]
                  simp only [Except.map, Except.ok.injEq]
                  exact node_reshape_ren rn node _ out_arg
                    (by simp [ren_arg, hgen]) (by simp [ren_arg, harg])

theorem handle_unsqueeze_equiv (rn : String → String) (hinj : Function.Injective rn)
    (node : Node) (g1 g2 : OnnxGraphIo) (hrel : GioRel rn g1 g2) (m1 m2 : ModelProto)
    (hcv : check_validity m2 = check_validity m1)
    (hgen : rn (node.name ++ "_generated_const") = node.name ++ "_generated_const") :
    handle_unsqueeze (ren_node rn node) g2 m2 =
      (handle_unsqueeze node g1 m1).map (ren_node rn) := by
  rw [handle_unsqueeze, handle_unsqueeze]
  by_cases hu : node.node_type = NodeType.Unsqueeze
  · rw [if_pos (show (ren_node rn node).node_type = NodeType.Unsqueeze from hu), if_pos hu]
    rw [show (ren_node rn node).inputs = node.inputs.map (ren_arg rn) from rfl]
    rw [List.get?_map]
    cases h1 : node.inputs.get? 1 with
    | none => simp [Except.map]
    | some rhs =>
        simp only [Option.map_some']
        by_cases hv : rhs.value = none
        · rw [if_pos (show (ren_arg rn rhs).value = none from hv), if_pos hv]
          rw [show (ren_node rn node).outputs = node.outputs.map (ren_arg rn) from rfl]
          rw [List.get?_map]
          cases h0 : node.outputs.get? 0 with
          | none => simp [Except.map]
          | some out0 =>
              simp only [Option.map_some']
              have hgno := get_node_output_equiv rn hinj g1 g2 hrel out0.name
              rw [show (ren_arg rn out0).name = rn out0.name from rfl]
              rw [hgno.1]
              cases hg : g1.get_node_output out0.name with
              | error e =>
                  dsimp only
                  rw [hcv]
                  cases hvv : check_validity m1 with
                  | error e2 => simp [bind, Except.bind, Except.map]
                  | ok u => simp [bind, Except.bind, Except.map]
              | ok oa =>
                  cases oa with
                  | none => simp [Except.map]
                  | some in_arg =>
                      dsimp only
                      exact remap_unsqueeze_equiv rn node in_arg hgen (hgno.2 in_arg hg)
        · rw [if_neg (show ¬ (ren_arg rn rhs).value = none from hv), if_neg hv]
          simp [Except.map]
  · rw [if_neg (show ¬ (ren_node rn node).node_type = NodeType.Unsqueeze from hu), if_neg hu]
    simp [Except.map]

theorem pre_unsqueeze_stages_equiv (ρ rn : String → String) (hinj : Function.Injective rn)
    (st : BuilderState) (g1 g2 : OnnxGraphIo) (hrel : GioRel rn g1 g2) (i : Nat)
    (p : NodeProto) (rest1 rest2 : List NodeProto)
    (hin : ∀ nm ∈ p.input, ρ nm = rn nm) (hout : ∀ nm ∈ p.output, ρ nm = rn nm) :
    pre_unsqueeze_stages (ren_builder rn st) g2 i (rename_node_proto ρ p) rest2 =
      (pre_unsqueeze_stages st g1 i p rest1).map
        (fun q => (ren_builder rn q.1, ren_node rn q.2)) := by
  rw [pre_unsqueeze_stages, pre_unsqueeze_stages]
  rw [convert_node_proto_equiv ρ rn hinj g1 g2 hrel p hin hout]
  cases hc : convert_node_proto p g1 with
  | error e => simp [Except.map, bind, Except.bind]
  | ok n =>
      simp only [Except.map, bind, Except.bind]
      rw [show remap_node_type (ren_node rn n) = ren_node rn (remap_node_type n) from rfl]
      rw [show coalesce (ren_node rn (remap_node_type n)) rest2 g2 =
        ren_node rn (coalesce (remap_node_type n) rest1 g1) from rfl]
      rw [handle_node_renaming_equiv rn st (coalesce (remap_node_type n) rest1 g1)]
      rcases hhn : handle_node_renaming st (coalesce (remap_node_type n) rest1 g1) with ⟨st1, n1⟩
      dsimp only
      rw [handle_identity_equiv rn hinj st1 n1 i]
      cases hhi : handle_identity st1 n1 i with
      | error e => simp [Except.map, bind, Except.bind]
      | ok q =>
          obtain ⟨st2, n2⟩ := q
          simp only [Except.map, bind, Except.bind]
          rw [check_constants_equiv rn hinj st2 n2 i g1 g2]
          cases hcc : check_constants st2 n2 i g1 with
          | error e => simp [Except.map]
          | ok r => simp [Except.map]

theorem process_node_equiv (ρ rn : String → String) (hinj : Function.Injective rn)
    (hguard : ∀ s, rn_guard s = true → rn s = s) (m1 m2 : ModelProto)
    (hcv : check_validity m2 = check_validity m1)
    (st : BuilderState) (g1 g2 : OnnxGraphIo) (hrel : GioRel rn g1 g2) (i : Nat)
    (p : NodeProto) (rest1 rest2 : List NodeProto)
    (hin : ∀ nm ∈ p.input, ρ nm = rn nm) (hout : ∀ nm ∈ p.output, ρ nm = rn nm) :
    (process_node m2 (ren_builder rn st) g2 i (rename_node_proto ρ p) rest2 =
      (process_node m1 st g1 i p rest1).map
        (fun t => (ren_builder rn t.1, ren_gio rn t.2.1, ren_node rn t.2.2))) ∧
    (∀ stf g1f nf, process_node m1 st g1 i p rest1 = Except.ok (stf, g1f, nf) →
      GioRel rn g1f (ren_gio rn g1f)) := by
  rw [process_node, process_node]
  rw [pre_unsqueeze_stages_equiv ρ rn hinj st g1 g2 hrel i p rest1 rest2 hin hout]
  constructor
  · cases hps : pre_unsqueeze_stages st g1 i p rest1 with
    | error e => simp [Except.map, bind, Except.bind]
    | ok q =>
        obtain ⟨st1, n1⟩ := q
        simp only [Except.map, bind, Except.bind]
        rw [handle_unsqueeze_equiv rn hinj n1 g1 g2 hrel m1 m2 hcv
          (hguard _ (rn_guard_generated_const n1.name))]
        cases hhu : handle_unsqueeze n1 g1 m1 with
        | error e => simp [Except.map, bind, Except.bind]
        | ok n2 =>
            simp only [Except.map, bind, Except.bind]
            simp only [dim_inference]
            have huts := update_tensor_output_equiv rn hinj n2 g1 g2 hrel
            have hri := rename_io_equiv rn hinj hguard m1 m2 hcv n2
              (g1.update_tensor_output n2) (g2.update_tensor_output (ren_node rn n2)) huts
            rw [hri.1]
            cases hr : rename_io n2 (g1.update_tensor_output n2) m1 with
            | error e => simp [Except.map, bind, Except.bind]
            | ok q2 =>
                obtain ⟨n3, g1b⟩ := q2
                simp [Except.map, bind, Except.bind]
  · intro stf g1f nf hok
    cases hps : pre_unsqueeze_stages st g1 i p rest1 with
    | error e => rw [hps] at hok; simp [bind, Except.bind] at hok
    | ok q =>
        obtain ⟨st1, n1⟩ := q
        rw [hps] at hok
        simp only [bind, Except.bind] at hok
        cases hhu : handle_unsqueeze n1 g1 m1 with
        | error e => rw [hhu] at hok; simp at hok
        | ok n2 =>
            rw [hhu] at hok
            simp only [dim_inference] at hok
            have huts := update_tensor_output_equiv rn hinj n2 g1 g2 hrel
            have hri := rename_io_equiv rn hinj hguard m1 m2 hcv n2
              (g1.update_tensor_output n2) (g2.update_tensor_output (ren_node rn n2)) huts
            cases hr : rename_io n2 (g1.update_tensor_output n2) m1 with
            | error e => rw [hr] at hok; simp at hok
            | ok q2 =>
                obtain ⟨n3, g1b⟩ := q2
                rw [hr] at hok
                simp only [Except.ok.injEq, Prod.mk.injEq] at hok
                have := hri.2 n3 g1b hr
                rw [hok.2.1] at this
                exact this

theorem build_loop_equiv (ρ rn : String → String) (hinj : Function.Injective rn)
    (hguard : ∀ s, rn_guard s = true → rn s = s) (m1 m2 : ModelProto)
    (hcv : check_validity m2 = check_validity m1) :
    ∀ (protos : List NodeProto) (st : BuilderState) (g1 g2 : OnnxGraphIo), GioRel rn g1 g2 →
      ∀ (i : Nat) (acc : List Node),
        (∀ p ∈ protos, (∀ nm ∈ p.input, ρ nm = rn nm) ∧ (∀ nm ∈ p.output, ρ nm = rn nm)) →
        build_loop m2 (ren_builder rn st) g2 i (acc.map (ren_node rn))
            (protos.map (rename_node_proto ρ)) =
          (build_loop m1 st g1 i acc protos).map
            (fun t => (ren_builder rn t.1, ren_gio rn t.2.1, t.2.2.map (ren_node rn))) := by
  intro protos
  induction protos with
  | nil =>
      intro st g1 g2 hrel i acc _
      rw [List.map_nil, build_loop, build_loop, hrel.eq]
      rfl
  | cons p rest ih =>
      intro st g1 g2 hrel i acc hio
      simp only [List.map_cons, build_loop]
      have hpn := process_node_equiv ρ rn hinj hguard m1 m2 hcv st g1 g2 hrel i p rest
        (rest.map (rename_node_proto ρ)) (hio p (List.mem_cons_self _ _)).1
        (hio p (List.mem_cons_self _ _)).2
      rw [hpn.1]
      cases hp : process_node m1 st g1 i p rest with
      | error e => simp [Except.map, bind, Except.bind]
      | ok t =>
          obtain ⟨st1, g1a, n1⟩ := t
          simp only [Except.map, bind, Except.bind]
          have hrel1 : GioRel rn g1a (ren_gio rn g1a) := hpn.2 st1 g1a n1 hp
          have hrec := ih st1 g1a (ren_gio rn g1a) hrel1 (i + 1) (acc ++ [n1])
            (fun q hq => hio q (List.mem_cons_of_mem _ hq))
          have hmap : acc.map (ren_node rn) ++ [ren_node rn n1] =
              (acc ++ [n1]).map (ren_node rn) := by simp
          rw [hmap, hrec]
          cases hb : build_loop m1 st1 g1a (i + 1) (acc ++ [n1]) rest with
          | error e => simp [Except.map]
          | ok v => simp [Except.map]

theorem mem_initializer_map_aux :
    ∀ (l : List TensorProto) (acc : List (String × Argument)) (p : String × Argument),
      p ∈ l.foldl (fun m x => (x.name, Argument.from_initializer x) :: m) acc →
        p ∈ acc ∨ ∃ t ∈ l, p = (t.name, Argument.from_initializer t) := by
  intro l
  induction l with
  | nil => intro acc p hp; exact Or.inl hp
  | cons t rest ih =>
      intro acc p hp
      rw [List.foldl_cons] at hp
      rcases ih _ p hp with hacc | ⟨u, hu, hpu⟩
      · rcases List.mem_cons.mp hacc with heq | hmem
        · exact Or.inr ⟨t, List.mem_cons_self _ _, heq⟩
        · exact Or.inl hmem
      · exact Or.inr ⟨u, List.mem_cons_of_mem _ hu, hpu⟩

theorem mem_enum_snd {α : Type} {l : List α} {p : Nat × α} (hp : p ∈ l.enum) : p.2 ∈ l :=
  List.get?_mem (List.mem_enum_iff_get?.mp hp)

theorem gio_new_rel (rn : String → String)
    (inputs outputs : List ValueInfoProto) (inits : List TensorProto)
    (hfix_in : ∀ vi ∈ inputs, rn vi.name = vi.name)
    (hfix_out : ∀ vi ∈ outputs, rn vi.name = vi.name)
    (hfix_init : ∀ t ∈ inits, rn t.name = t.name)
    (hginput : ∀ k, rn ("input" ++ Nat.repr k) = "input" ++ Nat.repr k) :
    GioRel rn (OnnxGraphIo.new inputs outputs inits) (OnnxGraphIo.new inputs outputs inits) := by
  have hinit_mem : ∀ p ∈ (OnnxGraphIo.new inputs outputs inits).initializers,
      rn p.1 = p.1 ∧ p.2.name = p.1 := by
    intro p hp
    rcases mem_initializer_map_aux inits [] p hp with hf | ⟨t, ht, hpt⟩
    · cases hf
    · rw [hpt]
      exact ⟨hfix_init t ht, rfl⟩
  have hkeys : ∀ p ∈ (OnnxGraphIo.new inputs outputs inits).old_io_names, rn p.1 = p.1 := by
    intro p hp
    simp only [OnnxGraphIo.new] at hp
    rcases List.mem_append.mp hp with h | h
    · rw [List.mem_reverse] at h
      rcases List.mem_map.mp h with ⟨q, hq, hqe⟩
      rw [← hqe]
      exact hfix_out q.2 (mem_enum_snd hq)
    · rw [List.mem_reverse] at h
      rcases List.mem_map.mp h with ⟨q, hq, hqe⟩
      rw [← hqe]
      exact hfix_in q.2 (mem_enum_snd hq)
  have hinps : ∀ a ∈ (OnnxGraphIo.new inputs outputs inits).inputs, rn a.name = a.name := by
    intro a ha
    simp only [OnnxGraphIo.new] at ha
    rcases List.mem_map.mp ha with ⟨q, hq, hqe⟩
    rw [← hqe]
    exact hginput (q.1 + 1)
  have houts : ∀ a ∈ (OnnxGraphIo.new inputs outputs inits).outputs, rn a.name = a.name := by
    intro a ha
    simp only [OnnxGraphIo.new] at ha
    rcases List.mem_map.mp ha with ⟨vi, hvi, hve⟩
    rw [← hve]
    exact hfix_out vi hvi
  refine ⟨?_, hinit_mem, hinps, houts⟩
  rw [ren_gio, map_ren_key_fixed rn _ hkeys]
  rw [show ((OnnxGraphIo.new inputs outputs inits).node_out.map (ren_arg rn))
    = (OnnxGraphIo.new inputs outputs inits).node_out from rfl]

theorem retain_by_index_map (rm : List Nat) (f : Node → Node) (l : List Node) :
    retain_by_index rm (l.map f) = (retain_by_index rm l).map f := by
  rw [retain_by_index, retain_by_index, List.enum_map]
  rw [List.filter_map, List.map_map]
  have hpred : (((fun p => decide (p.1 ∉ rm)) : Nat × Node → Bool) ∘ Prod.map id f) =
      (fun p : Nat × Node => decide (p.1 ∉ rm)) := by
    funext p; rfl
  have hmapf : (((fun p => p.2) : Nat × Node → Node) ∘ Prod.map id f) =
      (f ∘ fun p : Nat × Node => p.2) := by
    funext p; rfl
  rw [hpred, hmapf, List.map_map]

/-- Renaming of a final IR graph: every node's argument names are renamed; the
node names and the graph input/output slots are untouched. -/
def ren_graph (rn : String → String) (g : OnnxGraph) : OnnxGraph :=
  { nodes := g.nodes.map (ren_node rn), inputs := g.inputs, outputs := g.outputs }

/-- C7 amended: under the hygiene conditions `RenOk` — the renaming of
original node-output names is injective, keeps unreserved names unreserved,
fixes every declared graph input/output and initializer name, every file node
I/O name is unreserved, and Constant/Identity nodes have at most one output —
the build is name-oblivious: the graph built from the renamed file is exactly
the graph built from the original file with every in-flight argument name
renamed (`ren_graph` along `rn_of`), with identical node names and identical
graph input/output slots; in particular the final node-name lists of the two
builds are identical. -/
theorem c7_amended_renaming_oblivious (ρ : String → String) (m : ModelProto)
    (hok : RenOk ρ m) :
    (build (rename_model ρ m) = (build m).map (ren_graph (rn_of ρ))) ∧
    ((build (rename_model ρ m)).map (fun g => g.nodes.map (fun n => n.name)) =
      (build m).map (fun g => g.nodes.map (fun n => n.name))) := by
  have hinj : Function.Injective (rn_of ρ) := rn_of_inj ρ hok.inj hok.guard_stable
  have hguard : ∀ s, rn_guard s = true → rn_of ρ s = s := fun s h => rn_of_guarded ρ s h
  have hcv : check_validity (rename_model ρ m) = check_validity m :=
    check_validity_equiv ρ hok.inj m
  have hrel := gio_new_rel (rn_of ρ) m.graph.input m.graph.output m.graph.initializer
    (fun vi hvi => rn_of_fix ρ _ (hok.fix_inputs vi hvi))
    (fun vi hvi => rn_of_fix ρ _ (hok.fix_outputs vi hvi))
    (fun t ht => rn_of_fix ρ _ (hok.fix_inits t ht))
    (fun k => rn_of_guarded ρ _ (rn_guard_input_repr k))
  have hio : ∀ p ∈ m.graph.node, (∀ nm ∈ p.input, ρ nm = rn_of ρ nm) ∧
      (∀ nm ∈ p.output, ρ nm = rn_of ρ nm) := by
    intro p hp
    exact ⟨fun nm hnm => (rn_of_unguarded ρ nm ((hok.io_unguarded p hp).1 nm hnm)).symm,
      fun nm hnm => (rn_of_unguarded ρ nm ((hok.io_unguarded p hp).2 nm hnm)).symm⟩
  have hmain : build (rename_model ρ m) = (build m).map (ren_graph (rn_of ρ)) := by
    rw [build, build]
    rw [show (rename_model ρ m).graph.input = m.graph.input from rfl]
    rw [show (rename_model ρ m).graph.output = m.graph.output from rfl]
    rw [show (rename_model ρ m).graph.initializer = m.graph.initializer from rfl]
    rw [show (rename_model ρ m).graph.node = m.graph.node.map (rename_node_proto ρ) from rfl]
    have hbl := build_loop_equiv ρ (rn_of ρ) hinj hguard m (rename_model ρ m) hcv
      m.graph.node BuilderState.new
      (OnnxGraphIo.new m.graph.input m.graph.output m.graph.initializer)
      (OnnxGraphIo.new m.graph.input m.graph.output m.graph.initializer) hrel 0 [] hio
    rw [show ren_builder (rn_of ρ) BuilderState.new = BuilderState.new from rfl] at hbl
    rw [show (([] : List Node).map (ren_node (rn_of ρ))) = ([] : List Node) from rfl] at hbl
    rw [hbl]
    cases hb : build_loop m BuilderState.new
        (OnnxGraphIo.new m.graph.input m.graph.output m.graph.initializer) 0 []
        m.graph.node with
    | error e => simp [Except.map, bind, Except.bind]
    | ok t =>
        obtain ⟨stf, gf, nodesf⟩ := t
        simp only [Except.map, bind, Except.bind]
        rw [show (ren_builder (rn_of ρ) stf).nodes_to_remove = stf.nodes_to_remove from rfl]
        rw [retain_by_index_map]
        rw [show (ren_gio (rn_of ρ) gf).inputs = gf.inputs from rfl]
        rw [show (ren_gio (rn_of ρ) gf).outputs = gf.outputs from rfl]
        simp [remove_unused_graph_inputs, ren_graph]
  refine ⟨hmain, ?_⟩
  rw [hmain]
  cases hb : build m with
  | error e => simp [Except.map]
  | ok g =>
      simp only [Except.map, Except.ok.injEq, ren_graph, List.map_map]
      exact map_congr_mem _ _ _ (fun n _ => rfl)

/-- An original-name renaming for the amended-C7 witness: swap the internal
edge names `u` and `t`, leave every other name alone. -/
def swap_ut (s : String) : String := if s = "u" then "t" else if s = "t" then "u" else s

theorem swap_ut_inj : Function.Injective swap_ut := by
  intro a b h
  rw [swap_ut, swap_ut] at h
  by_cases ha : a = "u" <;> by_cases hb : b = "u" <;> by_cases ha2 : a = "t" <;>
    by_cases hb2 : b = "t" <;> simp_all

theorem swap_ut_guard_stable : ∀ s, rn_guard s = false → rn_guard (swap_ut s) = false := by
  intro s h
  rw [swap_ut]
  split
  · decide
  · split
    · decide
    · exact h

/-- A two-node chain for the amended-C7 witness: `a : Relu(x) -> u`,
`b : Relu(u) -> z`, declared input `x`, declared output `z`. -/
def model_c7w : ModelProto :=
  ⟨⟨[⟨NodeType.Relu, "a", ["x"], ["u"], []⟩, ⟨NodeType.Relu, "b", ["u"], ["z"], []⟩],
    [⟨"x", tyF1⟩], [⟨"z", tyF1⟩], []⟩⟩

theorem c7_amended_renaming_oblivious_witness :
    (build (rename_model swap_ut model_c7w) =
      (build model_c7w).map (ren_graph (rn_of swap_ut))) ∧
    ((build (rename_model swap_ut model_c7w)).map (fun g => g.nodes.map (fun n => n.name)) =
      (build model_c7w).map (fun g => g.nodes.map (fun n => n.name))) :=
  c7_amended_renaming_oblivious swap_ut model_c7w
    ⟨swap_ut_inj, swap_ut_guard_stable, by decide, by decide, by decide, by decide, by decide⟩
